import Mathlib

/-
Verification of the reconciliation ("router") scripts of
Operations_Router_ACCESSDB against their specification.

The repository contains three near-identical ETL scripts:
  * bin/router_accessdb-fos.py   (class Router, fields of science)
  * bin/route_xdcdb-persons.py   (class HandleLoad, persons)
  * bin/route_xdcdb-users.py     (class HandleLoad, user-to-resource map)

This file shallowly embeds the reconciliation cores of these scripts:
database rows become association lists of scalar values, the Django
destination table becomes a primary-key-keyed association list, the md5
content digest is modeled as the canonical pre-hash byte string itself
(md5 is idealized as injective), and per-record DataError/IntegrityError
write failures become Boolean oracles on the record key.  Python
exceptions that the scripts do not catch (KeyError, TypeError, NameError,
AttributeError) are modeled explicitly with an `Except`-style outcome.
-/

namespace RouterDB

set_option maxRecDepth 4000

/-- A scalar value as delivered by the psycopg2 driver or held by a Django
model field: SQL NULL / Python `None`, a string, an integer, or a boolean. -/
inductive Scalar where
  | null : Scalar
  | str : String → Scalar
  | int : Int → Scalar
  | bool : Bool → Scalar
deriving DecidableEq, Repr

/-- A Python dict with string keys and scalar values, in insertion order
(e.g. `rowdict = dict(zip(COLS, row))`, or `model_to_dict(item)`). -/
abbrev Row := List (String × Scalar)

/-- The Python exceptions that can escape the store loops.  The scripts
only catch `DataError` and `IntegrityError`; everything here propagates. -/
inductive PyErr where
  | keyError : String → PyErr
  | typeError : PyErr
  | nameError : String → PyErr
  | attributeError : String → PyErr
deriving DecidableEq, Repr

instance {ε α : Type} [DecidableEq ε] [DecidableEq α] : DecidableEq (Except ε α) :=
  fun a b =>
    match a, b with
    | .ok x, .ok y =>
      if h : x = y then isTrue (h ▸ rfl) else isFalse (fun q => h (Except.ok.inj q))
    | .error x, .error y =>
      if h : x = y then isTrue (h ▸ rfl) else isFalse (fun q => h (Except.error.inj q))
    | .ok _, .error _ => isFalse (fun q => Except.noConfusion q)
    | .error _, .ok _ => isFalse (fun q => Except.noConfusion q)

/-! ### Association-list dictionaries

Python dicts are modeled as insertion-ordered association lists.  Keys of a
Python dict are unique; `setKey` preserves this and preserves the position
of an existing key, as CPython does. -/

/-- `k in d` on a Python dict. -/
def containsKey {κ α : Type} [BEq κ] (m : List (κ × α)) (k : κ) : Bool :=
  m.any (fun p => p.1 == k)

/-- `d.get(k)` on a Python dict (`none` when the key is absent). -/
def lookupKey {κ α : Type} [BEq κ] (m : List (κ × α)) (k : κ) : Option α :=
  (m.find? (fun p => p.1 == k)).map (fun p => p.2)

/-- In-place value replacement at key `k`, keeping keys and positions. -/
def replaceVal {κ α : Type} [BEq κ] (m : List (κ × α)) (k : κ) (v : α) : List (κ × α) :=
  m.map (fun p => if p.1 == k then (p.1, v) else p)

/-- `d[k] = v` on a Python dict: replace in place when the key exists
(keeping the original key object and position), else append. -/
def setKey {κ α : Type} [BEq κ] (m : List (κ × α)) (k : κ) (v : α) : List (κ × α) :=
  if containsKey m k then replaceVal m k v
  else m ++ [(k, v)]

/-- Deleting every entry stored under primary key `k`. -/
def removeKey {κ α : Type} [BEq κ] (m : List (κ × α)) (k : κ) : List (κ × α) :=
  m.filter (fun p => !(p.1 == k))

/-- `rowdict[k]` on a string-keyed dict: `KeyError` when the key is absent. -/
def Row.getItem (r : Row) (k : String) : Except PyErr Scalar :=
  match lookupKey r k with
  | some v => .ok v
  | none => .error (.keyError k)

/-- Attribute-style access with a default, used where the source row is
known to contain the field. -/
def getScalarD (r : Row) (k : String) : Scalar :=
  (lookupKey r k).getD .null

/-! ### Canonicalization and content digest

`Store_Destination` (router_accessdb-fos.py lines 230-244) canonicalizes a
record as `str({k: v for k, v in sorted(xdict.items())}).encode('UTF-8')`
and hashes it with md5.  We model the digest as the canonical string
itself: md5 is idealized as an injective function, so digest equality is
equality of canonical strings. -/

/-- Python `str()` of a scalar. -/
def pyStrScalar : Scalar → String
  | .null => "None"
  | .str s => s
  | .int n => toString n
  | .bool true => "True"
  | .bool false => "False"

/-- Python `repr()` of a scalar, as it appears inside `str(dict)`. -/
def reprScalar : Scalar → String
  | .null => "None"
  | .str s => "'" ++ s ++ "'"
  | .int n => toString n
  | .bool true => "True"
  | .bool false => "False"

/-- Python `str()` of a dict of scalars: `\x7b'k': v, ...\x7d`. -/
def reprRow (r : Row) : String :=
  "\x7b" ++ String.intercalate ", "
    (r.map (fun p => "'" ++ p.1 ++ "': " ++ reprScalar p.2)) ++ "\x7d"

/-- Lexicographic comparison of character sequences by code point: this is
exactly how Python compares the string keys in `sorted(...)`.  Structurally
recursive so that concrete digests compute inside the kernel. -/
def charListLe : List Char → List Char → Bool
  | [], _ => true
  | _ :: _, [] => false
  | a :: as, b :: bs =>
    if a.toNat < b.toNat then true
    else if b.toNat < a.toNat then false
    else charListLe as bs

/-- `a <= b` on strings by code point. -/
def strle (a b : String) : Bool := charListLe a.data b.data

/-- The key ordering used by Python's `sorted(xdict.items())`.  Dict items
have pairwise-distinct keys, so the tuple comparison is decided by the
key alone. -/
def keyle (a b : String × Scalar) : Prop := strle a.1 b.1 = true

instance : DecidableRel keyle := fun a b => inferInstanceAs (Decidable (_ = true))

/-- Strict key ordering, used to show the sorted form is unique. -/
def keylt (a b : String × Scalar) : Prop := keyle a b ∧ a.1 ≠ b.1

/-- `sorted(xdict.items())`: a stable sort by key. -/
def sortRow (r : Row) : Row := List.insertionSort keyle r

/-- The content digest of a record: md5 (idealized as injective) of the
canonical sorted-and-stringified form. -/
def digestRow (r : Row) : String := reprRow (sortRow r)

/-- ASCII lowercasing of one character, which is what `str.lower()` does
on the identifier-like column values compared against "none". -/
def charLower (c : Char) : Char :=
  if 65 ≤ c.toNat ∧ c.toNat ≤ 90 then Char.ofNat (c.toNat + 32) else c

/-- `s.lower()` for the comparison with the literal "none". -/
def strLower (s : String) : String := ⟨s.data.map charLower⟩

/-- The per-field normalization applied to destination records before
hashing (router_accessdb-fos.py lines 233-235): a string spelling "none"
in any case becomes `None`. -/
def normScalar (v : Scalar) : Scalar :=
  match v with
  | .str s => if strLower s == "none" then .null else v
  | _ => v

/-- Normalization of every field of a record. -/
def normRow (r : Row) : Row := r.map (fun p => (p.1, normScalar p.2))

/-! ### The FOS router (router_accessdb-fos.py)

The Django destination table for `FieldOfScience` is modeled as an
association list keyed by the model's primary key `field_of_science_id`;
`objects.all()` enumerates it, so the `self.cur` / `self.curdigest` dicts
rebuilt at lines 228-239 coincide with this keying (primary keys are
unique, so the map has pairwise-distinct keys). -/

/-- The columns of a `FieldOfScience` record, in the order the defaults
dict of `update_or_create` (lines 248-263) reads them. -/
def fosFields : List String :=
  ["field_of_science_id", "field_of_science_desc", "fos_nsf_id",
   "fos_nsf_abbrev", "is_active", "fos_source", "nsf_directorate_id",
   "nsf_directorate_name", "nsf_directorate_abbrev",
   "parent_field_of_science_id", "parent_field_of_science_desc",
   "parent_fos_nsf_id", "parent_fos_nsf_abbrev"]

/-- A record holding every column `Store_Destination` reads. -/
def fosComplete (r : Row) : Bool := fosFields.all (fun f => containsKey r f)

/-- The record that `update_or_create` stores for a source record `r`:
the natural key plus the defaults dict of lines 250-263.  Several fields
are passed through Python `str()`, the rest verbatim. -/
def fosStoredRow (r : Row) : Row :=
  [("field_of_science_id", getScalarD r "field_of_science_id"),
   ("field_of_science_desc", .str (pyStrScalar (getScalarD r "field_of_science_desc"))),
   ("fos_nsf_id", getScalarD r "fos_nsf_id"),
   ("fos_nsf_abbrev", .str (pyStrScalar (getScalarD r "fos_nsf_abbrev"))),
   ("is_active", .str (pyStrScalar (getScalarD r "is_active"))),
   ("fos_source", .str (pyStrScalar (getScalarD r "fos_source"))),
   ("nsf_directorate_id", .str (pyStrScalar (getScalarD r "nsf_directorate_id"))),
   ("nsf_directorate_name", .str (pyStrScalar (getScalarD r "nsf_directorate_name"))),
   ("nsf_directorate_abbrev", .str (pyStrScalar (getScalarD r "nsf_directorate_abbrev"))),
   ("parent_field_of_science_id", getScalarD r "parent_field_of_science_id"),
   ("parent_field_of_science_desc", getScalarD r "parent_field_of_science_desc"),
   ("parent_fos_nsf_id", getScalarD r "parent_fos_nsf_id"),
   ("parent_fos_nsf_abbrev", .str (pyStrScalar (getScalarD r "parent_fos_nsf_abbrev")))]

/-- Evaluation of the `update_or_create` keyword arguments (lines 248-263):
the match key `nitem['field_of_science_id']` first, then each entry of the
defaults dict, in source order; any missing column raises `KeyError`. -/
def fosDefaults (r : Row) : Except PyErr (Scalar × Row) := do
  let idv ← r.getItem "field_of_science_id"
  let _ ← r.getItem "field_of_science_desc"
  let _ ← r.getItem "fos_nsf_id"
  let _ ← r.getItem "fos_nsf_abbrev"
  let _ ← r.getItem "is_active"
  let _ ← r.getItem "fos_source"
  let _ ← r.getItem "nsf_directorate_id"
  let _ ← r.getItem "nsf_directorate_name"
  let _ ← r.getItem "nsf_directorate_abbrev"
  let _ ← r.getItem "parent_field_of_science_id"
  let _ ← r.getItem "parent_field_of_science_desc"
  let _ ← r.getItem "parent_fos_nsf_id"
  let _ ← r.getItem "parent_fos_nsf_abbrev"
  .ok (idv, fosStoredRow r)

/-- `self.curdigest` (lines 228-239): the digest of the none-normalized
`model_to_dict` image of every destination record, keyed like the table. -/
def curdigestOf (dest : List (Scalar × Row)) : List (Scalar × String) :=
  dest.map (fun p => (p.1, digestRow (normRow p.2)))

/-- The skip test of lines 242-244:
`hashlib.md5(strdict).digest() == self.curdigest.get(new_id, '')`
(the `''` default never equals an md5 digest, so an absent key never
matches). -/
def matchB (curdigest : List (Scalar × String)) (new_id : Scalar) (r : Row) : Bool :=
  match lookupKey curdigest new_id with
  | some d => digestRow r == d
  | none => false

/-- The error message logged for a failing save (lines 269-272); the text
of the underlying Django exception is outside the model. -/
def saveErrMsg (idv : Scalar) : String :=
  "DataError saving ID=" ++ pyStrScalar idv ++ ": "

/-- The error message logged for a failing delete (lines 282-284). -/
def delErrMsg (idv : Scalar) : String :=
  "DataError deleting ID=" ++ pyStrScalar idv ++ ": "

/-- The state `Store_Destination` accumulates: the destination table, the
outcome, and the `self.STATS` counters.  `raised = some e` means an
uncaught Python exception escaped the method; otherwise the method
returned `(ok, msg)`. -/
structure StoreRes where
  raised : Option PyErr := none
  ok : Bool := true
  msg : String := ""
  store : List (Scalar × Row) := []
  upd : Nat := 0
  del : Nat := 0
  skip : Nat := 0
  errlog : List String := []
deriving DecidableEq, Repr

/-- The update loop of `Store_Destination` (lines 240-273).  `fS id = true`
models `model.save()` raising `DataError`/`IntegrityError` for that natural
key, which the code catches, logs, and turns into `return (False, msg)`,
abandoning the rest of the loop and the delete phase. -/
def fosUpdate (curdigest : List (Scalar × String)) (fS : Scalar → Bool) :
    List (Scalar × Row) → StoreRes → StoreRes
  | [], st => st
  | (new_id, nitem) :: rest, st =>
    if matchB curdigest new_id nitem then
      fosUpdate curdigest fS rest { st with skip := st.skip + 1 }
    else
      match fosDefaults nitem with
      | .error e => { st with raised := some e }
      | .ok (idv, stored) =>
        if fS idv then
          { st with ok := false, msg := saveErrMsg idv,
                    errlog := st.errlog ++ [saveErrMsg idv] }
        else
          fosUpdate curdigest fS rest
            { st with store := setKey st.store idv stored, upd := st.upd + 1 }

/-- The delete loop of `Store_Destination` (lines 275-285), iterating the
`self.cur` snapshot.  `fD id = true` models `.delete()` raising
`DataError`/`IntegrityError`, which the code catches and logs before
continuing with the next record. -/
def fosDelete (new_items : List (Scalar × Row)) (fD : Scalar → Bool) :
    List (Scalar × Row) → StoreRes → StoreRes
  | [], st => st
  | (cur_id, _) :: rest, st =>
    if containsKey new_items cur_id then
      fosDelete new_items fD rest st
    else if fD cur_id then
      fosDelete new_items fD rest { st with errlog := st.errlog ++ [delErrMsg cur_id] }
    else
      fosDelete new_items fD rest
        { st with store := removeKey st.store cur_id, del := st.del + 1 }

/-- `Router.Store_Destination` (lines 221-285): snapshot digests, the
update loop, then — only if the update loop fell through normally — the
delete loop and `return (True, '')`. -/
def fosStore (dest new_items : List (Scalar × Row)) (fS fD : Scalar → Bool) : StoreRes :=
  let r1 := fosUpdate (curdigestOf dest) fS new_items { store := dest }
  if r1.raised.isSome || !r1.ok then r1
  else fosDelete new_items fD dest r1

/-- The none-normalization of `Retrieve_Source` (lines 216-218): only the
`fos_nsf_abbrev` column is inspected; a string spelling "none" in any case
is replaced by `None`.  Reading the column raises `KeyError` if absent. -/
def fosNormAbbrev (row : Row) : Except PyErr Row := do
  let na ← row.getItem "fos_nsf_abbrev"
  match na with
  | .str s =>
    if strLower s == "none" then .ok (setKey row "fos_nsf_abbrev" .null) else .ok row
  | _ => .ok row

/-- `Router.Retrieve_Source` (lines 203-219) after a successful query:
key each row by its `field_of_science_id` column and normalize
`fos_nsf_abbrev`. -/
def fosRetrieve (rows : List Row) : Except PyErr (List (Scalar × Row)) :=
  rows.foldlM (fun data row => do
    let key ← row.getItem "field_of_science_id"
    let row2 ← fosNormAbbrev row
    .ok (setKey data key row2)) []

/-- The externally observable outcome of one pass of `Router.Run`
(lines 311-333) together with the `__main__` wrapper (lines 335-346):
which `FinishActivity` reports were emitted, whether the process exited
abnormally, and whether `Disconnect_Source` ran on the cursor. -/
structure RunRes where
  reports : List (Bool × String) := []
  exitCode : Option Nat := none
  cursorClosed : Bool := false
deriving DecidableEq, Repr

/-- The run summary passed to `FinishActivity` (lines 329-332); the
wall-clock duration is outside the model. -/
def summaryMsg (res : StoreRes) : String :=
  "Processed router_accessdb-fos.py: " ++ toString res.upd ++ "/updates, " ++
    toString res.del ++ "/deletes, " ++ toString res.skip ++ "/skipped"

/-- One run of the FOS router.  `queryFails` models `cursor.execute`
raising `psycopg2.Error` in `Retrieve_Source`, whose handler calls
`exit(1)` directly (lines 207-209): the process dies before
`Disconnect_Source` and before `FinishActivity`.  An uncaught exception
from `Retrieve_Source` or `Store_Destination` lands in the `__main__`
handler (lines 341-345), which logs and exits 1, also without reporting
or closing the cursor. -/
def fosRun (queryFails : Bool) (srcRows : List Row) (dest : List (Scalar × Row))
    (fS fD : Scalar → Bool) : RunRes :=
  if queryFails then
    { reports := [], exitCode := some 1, cursorClosed := false }
  else
    match fosRetrieve srcRows with
    | .error _ => { reports := [], exitCode := some 1, cursorClosed := false }
    | .ok input =>
      let res := fosStore dest input fS fD
      match res.raised with
      | some _ => { reports := [], exitCode := some 1, cursorClosed := false }
      | none =>
        { reports := [(res.ok, summaryMsg res)], exitCode := none, cursorClosed := true }

/-! ### The persons router (route_xdcdb-persons.py)

`Retrieve_Source` (lines 185-248) returns a dict whose values are
heterogeneous Python objects: person rows (dicts), the address aggregate
(a list of row-dicts, or the `\x7b\x7d` default of `.get`), and the
citizenship/email aggregates (comma-joined strings or `None`). -/

/-- A heterogeneous Python value held in the persons `DATA` dict. -/
inductive PyObj where
  | scalar : Scalar → PyObj
  | dict : Row → PyObj
  | rowlist : List Row → PyObj
deriving DecidableEq, Repr

/-- Python `nitem[k]` with a string subscript: dicts look the key up
(`KeyError` when absent); lists, strings, numbers and `None` raise
`TypeError`. -/
def PyObj.getItem (o : PyObj) (k : String) : Except PyErr Scalar :=
  match o with
  | .dict r => Row.getItem r k
  | .rowlist _ => .error .typeError
  | .scalar _ => .error .typeError

/-- `A_DATA` (lines 192-199): address rows grouped per `person_id`, in
arrival order. -/
def buildA (rows : List Row) : Except PyErr (List (Scalar × List Row)) :=
  rows.foldlM (fun acc row => do
    let key ← row.getItem "person_id"
    match lookupKey acc key with
    | none => .ok (acc ++ [(key, [row])])
    | some rs => .ok (setKey acc key (rs ++ [row]))) []

/-- `C_DATA` / `E_DATA` (lines 207-215 and 223-231): the first value is
stored verbatim; later values are appended with `prev + ',' + v`, which
requires both sides to be strings (`TypeError` otherwise). -/
def buildJoin (col : String) (rows : List Row) : Except PyErr (List (Scalar × Scalar)) :=
  rows.foldlM (fun acc row => do
    let key ← row.getItem "person_id"
    let v ← row.getItem col
    match lookupKey acc key with
    | none => .ok (acc ++ [(key, v)])
    | some prev =>
      match prev, v with
      | .str s, .str t => .ok (setKey acc key (.str (s ++ "," ++ t)))
      | _, _ => .error .typeError) []

/-- The value stored under the literal key `'addresses'`:
`A_DATA.get(key, \x7b\x7d)`. -/
def addrVal (A : List (Scalar × List Row)) (key : Scalar) : PyObj :=
  match lookupKey A key with
  | some rs => .rowlist rs
  | none => .dict []

/-- One iteration of the person loop (lines 241-247): store the person row
under its `person_id`, then overwrite the three shared literal keys with
this person's aggregates. -/
def personsStep (A : List (Scalar × List Row)) (C E : List (Scalar × Scalar))
    (data : List (Scalar × PyObj)) (key : Scalar) (row : Row) : List (Scalar × PyObj) :=
  let d1 := setKey data key (.dict row)
  let d2 := setKey d1 (.str "addresses") (addrVal A key)
  let d3 := setKey d2 (.str "citizenships") (.scalar ((lookupKey C key).getD .null))
  setKey d3 (.str "emails") (.scalar ((lookupKey E key).getD .null))

/-- The person loop of `HandleLoad.Retrieve_Source` (lines 239-248). -/
def personsAssemble (A : List (Scalar × List Row)) (C E : List (Scalar × Scalar)) :
    List Row → List (Scalar × PyObj) → Except PyErr (List (Scalar × PyObj))
  | [], data => .ok data
  | row :: rest, data =>
    match row.getItem "person_id" with
    | .error e => .error e
    | .ok key => personsAssemble A C E rest (personsStep A C E data key row)

/-- `HandleLoad.Retrieve_Source` (lines 185-248) after four successful
queries. -/
def personsRetrieve (aRows cRows eRows pRows : List Row) :
    Except PyErr (List (Scalar × PyObj)) := do
  let A ← buildA aRows
  let C ← buildJoin "country" cRows
  let E ← buildJoin "Email" eRows
  personsAssemble A C E pRows []

/-- An `XSEDEPerson` model instance as built at lines 260-270.  The model
object is not a dict: subscripting it raises `TypeError`, which is what
the delete loop at lines 282-285 does. -/
structure PModel where
  person_id : Scalar
  portal_login : Scalar
  last_name : Scalar
  first_name : Scalar
  middle_name : Scalar
  is_suspended : Scalar
  organization : Scalar
  citizenships : Scalar
  emails : Scalar
  addressesJSON : Scalar
deriving DecidableEq, Repr

/-- Evaluation of the `XSEDEPerson(...)` keyword arguments (lines 260-270)
in source order; every subscript of `nitem` can raise. -/
def pUpdateStep (nitem : PyObj) : Except PyErr PModel := do
  let pid ← nitem.getItem "person_id"
  let pl ← nitem.getItem "portal_login"
  let ln ← nitem.getItem "last_name"
  let fn ← nitem.getItem "first_name"
  let mn ← nitem.getItem "middle_name"
  let isus ← nitem.getItem "is_suspended"
  let org ← nitem.getItem "organization"
  let cit ← nitem.getItem "citizenships"
  let em ← nitem.getItem "emails"
  let addr ← nitem.getItem "addresses"
  .ok ⟨pid, .str (pyStrScalar pl), .str (pyStrScalar ln), .str (pyStrScalar fn),
       .str (pyStrScalar mn), .str (pyStrScalar isus), .str (pyStrScalar org),
       .str (pyStrScalar cit), .str (pyStrScalar em), addr⟩

/-- Outcome state of `HandleLoad.Store_Destination`.  The persons script
initializes `MyUpdateStat`/`MyDeleteStat`/`MySkipStat` to 0 in `run()`;
`MySkipStat` is never incremented anywhere. -/
structure PStoreRes where
  raised : Option PyErr := none
  ok : Bool := true
  msg : String := ""
  store : List (Scalar × PModel) := []
  upd : Nat := 0
  del : Nat := 0
  skip : Nat := 0
deriving DecidableEq, Repr

/-- The update loop of `HandleLoad.Store_Destination` (lines 257-280).
There is no digest comparison: every record is saved.  When `model.save()`
raises `DataError`/`IntegrityError` (`fS`), the handler at lines 276-280
formats a message from the local variable `person_id` — which is only
assigned at line 272 AFTER a successful save, so a failure on the first
record raises `NameError`; otherwise `e.message` (gone in Python 3)
raises `AttributeError`.  The `return (False, msg)` is unreachable. -/
def personsUpdate (fS : Scalar → Bool) :
    List (Scalar × PyObj) → Option Scalar → PStoreRes → PStoreRes
  | [], _, st => st
  | (_, nitem) :: rest, lastPid, st =>
    match pUpdateStep nitem with
    | .error e => { st with raised := some e }
    | .ok m =>
      if fS m.person_id then
        match lastPid with
        | none => { st with raised := some (.nameError "person_id") }
        | some _ => { st with raised := some (.attributeError "message") }
      else
        personsUpdate fS rest (some m.person_id)
          { st with store := setKey st.store m.person_id m, upd := st.upd + 1 }

/-- The delete loop of `HandleLoad.Store_Destination` (lines 282-292):
its very condition `self.cur[item]['person_id'] not in new_items`
subscripts a model instance, so the first iteration raises `TypeError`. -/
def personsDelete :
    List (Scalar × PModel) → PStoreRes → PStoreRes
  | [], st => st
  | _ :: _, st => { st with raised := some .typeError }

/-- `HandleLoad.Store_Destination` (lines 250-292).  The destination
`XSEDEPerson` table is modeled as an association list keyed by
`person_id` (the key under which lines 255-256 rebuild `self.cur`). -/
def personsStore (dest : List (Scalar × PModel)) (new_items : List (Scalar × PyObj))
    (fS : Scalar → Bool) : PStoreRes :=
  let r1 := personsUpdate fS new_items none { store := dest }
  if r1.raised.isSome then r1
  else personsDelete dest r1

/-! ### Concrete records used in witnesses and counterexamples -/

/-- The no-failure oracle: no save / delete raises. -/
def noFail : Scalar → Bool := fun _ => false

/-- A delete-failure oracle hitting only the key 1. -/
def failDel1 : Scalar → Bool := fun k => k == Scalar.int 1

/-- A save-failure oracle hitting every key. -/
def failAll : Scalar → Bool := fun _ => true

/-- A concrete FOS source row whose `is_active` column is a boolean, as a
PostgreSQL boolean column delivers it. -/
def exFosRow : Row :=
  [("field_of_science_id", .int 1), ("field_of_science_desc", .str "Math"),
   ("fos_nsf_id", .int 10), ("fos_nsf_abbrev", .null),
   ("is_active", .bool true), ("fos_source", .str "nsf"),
   ("nsf_directorate_id", .str "d1"), ("nsf_directorate_name", .str "MPS"),
   ("nsf_directorate_abbrev", .str "mps"), ("parent_field_of_science_id", .null),
   ("parent_field_of_science_desc", .null), ("parent_fos_nsf_id", .null),
   ("parent_fos_nsf_abbrev", .str "x")]

/-- A concrete FOS source row whose stringified columns all hold strings,
so that storing it and reading it back reproduces the same digest. -/
def exFosRowS : Row :=
  [("field_of_science_id", .int 2), ("field_of_science_desc", .str "Bio"),
   ("fos_nsf_id", .int 11), ("fos_nsf_abbrev", .str "BI"),
   ("is_active", .str "1"), ("fos_source", .str "nsf"),
   ("nsf_directorate_id", .str "d2"), ("nsf_directorate_name", .str "BIO"),
   ("nsf_directorate_abbrev", .str "bio"), ("parent_field_of_science_id", .int 0),
   ("parent_field_of_science_desc", .str "root"), ("parent_fos_nsf_id", .int 0),
   ("parent_fos_nsf_abbrev", .str "r")]

/-- A concrete `XSEDEPerson` destination model: exactly the instance that
storing `exPersonDict` builds. -/
def exPersonModel : PModel :=
  ⟨.int 5, .str "u", .str "L", .str "F", .str "None", .str "False", .str "O",
   .str "US", .str "ex", .str "a"⟩

/-- A concrete persons source record carrying every field the persons
store reads. -/
def exPersonDict : Row :=
  [("person_id", .int 5), ("portal_login", .str "u"), ("last_name", .str "L"),
   ("first_name", .str "F"), ("middle_name", .null), ("is_suspended", .bool false),
   ("organization", .str "O"), ("citizenships", .str "US"), ("emails", .str "ex"),
   ("addresses", .str "a")]

/-- A concrete `person_v` row (the view exposes no addresses /
citizenships / emails columns). -/
def exPersonRow : Row :=
  [("person_id", .int 5), ("portal_login", .str "u"), ("last_name", .str "L"),
   ("first_name", .str "F"), ("middle_name", .null), ("is_suspended", .bool false),
   ("organization", .str "O")]

/-- The map `Retrieve_Source` produces from the single person row
`exPersonRow` with empty child tables. -/
def exPersonsDATA : List (Scalar × PyObj) :=
  [(.int 5, .dict exPersonRow),
   (.str "addresses", .dict []),
   (.str "citizenships", .scalar .null),
   (.str "emails", .scalar .null)]

/-! ### Lemmas about the dictionary operations -/

section MapLemmas

set_option linter.unusedSectionVars false

variable {κ α β : Type} [BEq κ] [LawfulBEq κ]

theorem containsKey_nil (k : κ) : containsKey ([] : List (κ × α)) k = false := rfl

theorem containsKey_cons (p : κ × α) (m : List (κ × α)) (k : κ) :
    containsKey (p :: m) k = ((p.1 == k) || containsKey m k) := by
  simp [containsKey]

theorem lookupKey_nil (k : κ) : lookupKey ([] : List (κ × α)) k = none := rfl

theorem lookupKey_cons (p : κ × α) (m : List (κ × α)) (k : κ) :
    lookupKey (p :: m) k = if p.1 == k then some p.2 else lookupKey m k := by
  by_cases h : p.1 == k <;> simp [lookupKey, List.find?_cons, h]

theorem containsKey_eq_isSome (m : List (κ × α)) (k : κ) :
    containsKey m k = (lookupKey m k).isSome := by
  induction m with
  | nil => rfl
  | cons p rest ih =>
    by_cases h : p.1 == k <;> simp [containsKey_cons, lookupKey_cons, h, ih]

theorem lookupKey_mem {m : List (κ × α)} {k : κ} {v : α}
    (h : lookupKey m k = some v) : (k, v) ∈ m := by
  induction m with
  | nil => simp [lookupKey_nil] at h
  | cons p rest ih =>
    rw [lookupKey_cons] at h
    by_cases hk : p.1 == k
    · have hp1 : p.1 = k := by simpa using hk
      have hp2 : p.2 = v := by simpa [hk] using h
      have hp : p = (k, v) := by
        cases p
        simp_all
      rw [hp]
      exact List.mem_cons_self _ _
    · simp [hk] at h
      exact List.mem_cons_of_mem _ (ih h)

theorem replaceVal_nil (k : κ) (v : α) : replaceVal ([] : List (κ × α)) k v = [] := rfl

theorem replaceVal_cons (p : κ × α) (m : List (κ × α)) (k : κ) (v : α) :
    replaceVal (p :: m) k v =
      (if p.1 == k then (p.1, v) else p) :: replaceVal m k v := by
  by_cases h : p.1 == k <;> simp [replaceVal, h]

theorem containsKey_replaceVal (m : List (κ × α)) (k j : κ) (v : α) :
    containsKey (replaceVal m k v) j = containsKey m j := by
  induction m with
  | nil => rfl
  | cons p rest ih =>
    by_cases hk : p.1 == k <;>
      simp [replaceVal_cons, hk, containsKey_cons, ih]

theorem lookupKey_replaceVal_self (m : List (κ × α)) (k : κ) (v : α) :
    lookupKey (replaceVal m k v) k =
      if containsKey m k then some v else none := by
  induction m with
  | nil => rfl
  | cons p rest ih =>
    by_cases hk : p.1 == k <;>
      simp [replaceVal_cons, hk, lookupKey_cons, containsKey_cons, ih]

theorem lookupKey_replaceVal_ne (m : List (κ × α)) (k j : κ) (v : α)
    (h : (j == k) = false) :
    lookupKey (replaceVal m k v) j = lookupKey m j := by
  induction m with
  | nil => rfl
  | cons p rest ih =>
    by_cases hk : p.1 == k
    · have hp : p.1 = k := by simpa using hk
      have hpj : (p.1 == j) = false := by
        cases hq : p.1 == j
        · rfl
        · have hpj' : p.1 = j := by simpa using hq
          rw [hp] at hpj'
          subst hpj'
          simp at h
      simp [replaceVal_cons, hk, lookupKey_cons, hpj]
      exact ih
    · by_cases hj : p.1 == j <;> simp [replaceVal_cons, hk, lookupKey_cons, hj, ih]

theorem lookupKey_append (m m' : List (κ × α)) (k : κ) :
    lookupKey (m ++ m') k =
      match lookupKey m k with
      | some v => some v
      | none => lookupKey m' k := by
  induction m with
  | nil => simp [lookupKey_nil]
  | cons p rest ih =>
    by_cases h : p.1 == k <;> simp [lookupKey_cons, h, ih]

theorem containsKey_append (m m' : List (κ × α)) (k : κ) :
    containsKey (m ++ m') k = (containsKey m k || containsKey m' k) := by
  simp [containsKey]

theorem lookupKey_setKey_self (m : List (κ × α)) (k : κ) (v : α) :
    lookupKey (setKey m k v) k = some v := by
  by_cases h : containsKey m k
  · simp [setKey, h, lookupKey_replaceVal_self]
  · simp [setKey, h, lookupKey_append, lookupKey_cons]
    rw [containsKey_eq_isSome] at h
    cases hl : lookupKey m k
    · simp [lookupKey_cons]
    · simp [hl] at h

theorem lookupKey_setKey_ne (m : List (κ × α)) (k j : κ) (v : α) (h : (j == k) = false) :
    lookupKey (setKey m k v) j = lookupKey m j := by
  have h' : (k == j) = false := by
    cases hkj : k == j
    · rfl
    · have : k = j := by simpa using hkj
      subst this
      simp at h
  by_cases hc : containsKey m k
  · simp [setKey, hc, lookupKey_replaceVal_ne _ _ _ _ h]
  · simp [setKey, hc, lookupKey_append, lookupKey_cons, h']
    cases hl : lookupKey m j <;> simp [lookupKey_nil]

theorem containsKey_setKey (m : List (κ × α)) (k j : κ) (v : α) :
    containsKey (setKey m k v) j = (containsKey m j || (k == j)) := by
  by_cases hc : containsKey m k
  · rw [setKey, if_pos hc, containsKey_replaceVal]
    cases hkj : k == j
    · simp [hkj]
    · have : k = j := by simpa using hkj
      subst this
      simp [hc]
  · simp [setKey, hc, containsKey_append, containsKey_cons, containsKey_nil]

theorem removeKey_nil (k : κ) : removeKey ([] : List (κ × α)) k = [] := rfl

theorem removeKey_cons (p : κ × α) (m : List (κ × α)) (k : κ) :
    removeKey (p :: m) k =
      if p.1 == k then removeKey m k else p :: removeKey m k := by
  by_cases h : p.1 == k <;> simp [removeKey, h]

theorem containsKey_removeKey (m : List (κ × α)) (k j : κ) :
    containsKey (removeKey m k) j = (containsKey m j && !(j == k)) := by
  induction m with
  | nil => simp [removeKey_nil, containsKey_nil]
  | cons p rest ih =>
    by_cases hk : p.1 == k
    · have hp : p.1 = k := by simpa using hk
      by_cases hj : p.1 == j
      · have hpj : p.1 = j := by simpa using hj
        have hjk : (j == k) = true := by simp [← hpj, hp]
        simp [removeKey_cons, hk, containsKey_cons, hj, hjk, ih]
      · simp [removeKey_cons, hk, containsKey_cons, hj, ih]
    · by_cases hj : p.1 == j
      · have hpj : p.1 = j := by simpa using hj
        have hjk : (j == k) = false := by
          cases hq : j == k
          · rfl
          · have : j = k := by simpa using hq
            subst this
            rw [hpj] at hk
            simp at hk
        simp [removeKey_cons, hk, containsKey_cons, hj, hjk, ih]
      · simp [removeKey_cons, hk, containsKey_cons, hj, ih]

theorem lookupKey_removeKey_ne (m : List (κ × α)) (k j : κ) (h : (j == k) = false) :
    lookupKey (removeKey m k) j = lookupKey m j := by
  induction m with
  | nil => simp [removeKey_nil]
  | cons p rest ih =>
    by_cases hk : p.1 == k
    · have hp : p.1 = k := by simpa using hk
      have hpj : (p.1 == j) = false := by
        cases hq : p.1 == j
        · rfl
        · have hpj' : p.1 = j := by simpa using hq
          rw [hp] at hpj'
          subst hpj'
          simp at h
      simp [removeKey_cons, hk, lookupKey_cons, hpj, ih]
    · by_cases hj : p.1 == j <;> simp [removeKey_cons, hk, lookupKey_cons, hj, ih]

theorem lookupKey_map_snd (f : α → β) (m : List (κ × α)) (k : κ) :
    lookupKey (m.map (fun p => (p.1, f p.2))) k = (lookupKey m k).map f := by
  induction m with
  | nil => simp [lookupKey_nil]
  | cons p rest ih =>
    by_cases h : p.1 == k <;> simp [lookupKey_cons, h, ih]

end MapLemmas

/-! ### The key ordering is a total preorder, antisymmetric on keys -/

theorem char_eq_of_toNat_eq {a b : Char} (h : a.toNat = b.toNat) : a = b := by
  have h2 : a.val.toBitVec.toNat = b.val.toBitVec.toNat := h
  have hv : a.val = b.val := by
    cases hva : a.val
    cases hvb : b.val
    rw [hva, hvb] at h2
    simp only at h2
    rw [BitVec.eq_of_toNat_eq h2]
  exact Char.eq_of_val_eq hv

theorem string_eq_of_data_eq {s t : String} (h : s.data = t.data) : s = t := by
  cases s
  cases t
  simp only at h
  rw [h]

theorem charListLe_total : ∀ x y : List Char, charListLe x y = true ∨ charListLe y x = true
  | [], _ => Or.inl rfl
  | _ :: _, [] => Or.inr rfl
  | a :: as, b :: bs => by
    by_cases h1 : a.toNat < b.toNat
    · left
      simp [charListLe, h1]
    · by_cases h2 : b.toNat < a.toNat
      · right
        simp [charListLe, h2]
      · rcases charListLe_total as bs with h | h
        · left
          simp [charListLe, h1, h2, h]
        · right
          simp [charListLe, h1, h2, h]

theorem charListLe_trans : ∀ {x y z : List Char}, charListLe x y = true →
    charListLe y z = true → charListLe x z = true
  | [], _, _, _, _ => rfl
  | _ :: _, [], _, h1, _ => by simp [charListLe] at h1
  | _ :: _, _ :: _, [], _, h2 => by simp [charListLe] at h2
  | a :: as, b :: bs, c :: cs, h1, h2 => by
    rw [charListLe] at h1 h2 ⊢
    by_cases hab : a.toNat < b.toNat
    · by_cases hbc : b.toNat < c.toNat
      · simp [lt_trans hab hbc]
      · by_cases hcb : c.toNat < b.toNat
        · rw [if_neg hbc, if_pos hcb] at h2
          cases h2
        · have hac : a.toNat < c.toNat := by omega
          simp [hac]
    · by_cases hba : b.toNat < a.toNat
      · rw [if_neg hab, if_pos hba] at h1
        cases h1
      · by_cases hbc : b.toNat < c.toNat
        · have hac : a.toNat < c.toNat := by omega
          simp [hac]
        · by_cases hcb : c.toNat < b.toNat
          · rw [if_neg hbc, if_pos hcb] at h2
            cases h2
          · have hac1 : ¬ a.toNat < c.toNat := by omega
            have hac2 : ¬ c.toNat < a.toNat := by omega
            rw [if_neg hab, if_neg hba] at h1
            rw [if_neg hbc, if_neg hcb] at h2
            rw [if_neg hac1, if_neg hac2]
            exact charListLe_trans h1 h2

theorem charListLe_antisymm : ∀ {x y : List Char}, charListLe x y = true →
    charListLe y x = true → x = y
  | [], [], _, _ => rfl
  | [], _ :: _, _, h2 => by simp [charListLe] at h2
  | _ :: _, [], h1, _ => by simp [charListLe] at h1
  | a :: as, b :: bs, h1, h2 => by
    rw [charListLe] at h1 h2
    by_cases hab : a.toNat < b.toNat
    · have hba : ¬ b.toNat < a.toNat := by omega
      rw [if_neg hba, if_pos hab] at h2
      cases h2
    · by_cases hba : b.toNat < a.toNat
      · rw [if_neg hab, if_pos hba] at h1
        cases h1
      · rw [if_neg hab, if_neg hba] at h1
        rw [if_neg hba, if_neg hab] at h2
        have hc : a = b := char_eq_of_toNat_eq (by omega)
        rw [hc, charListLe_antisymm h1 h2]

instance : IsTotal (String × Scalar) keyle :=
  ⟨fun a b => charListLe_total a.1.data b.1.data⟩

instance : IsTrans (String × Scalar) keyle :=
  ⟨fun _ _ _ h h' => charListLe_trans h h'⟩

instance : IsAntisymm (String × Scalar) keylt :=
  ⟨fun a b h h' =>
    absurd (string_eq_of_data_eq (charListLe_antisymm h.1 h'.1)) h.2⟩

/-! ### Canonical-form lemmas for the content digest -/

theorem sortRow_sorted (r : Row) : List.Sorted keyle (sortRow r) :=
  List.sorted_insertionSort keyle r

theorem sortRow_perm (r : Row) : (sortRow r).Perm r :=
  List.perm_insertionSort keyle r

/-- With pairwise-distinct keys the sorted form of a record is a canonical
form: any two permutations of the items sort to the same list. -/
theorem sortRow_eq_of_perm {r r' : Row} (h : r.Perm r')
    (hnd : (r.map Prod.fst).Nodup) : sortRow r = sortRow r' := by
  have hperm : (sortRow r).Perm (sortRow r') :=
    ((sortRow_perm r).trans h).trans (sortRow_perm r').symm
  have hnd1 : ((sortRow r).map Prod.fst).Nodup :=
    (((sortRow_perm r).map Prod.fst).nodup_iff).mpr hnd
  have hnd2 : ((sortRow r').map Prod.fst).Nodup :=
    ((hperm.map Prod.fst).nodup_iff).mp hnd1
  have hne1 : (sortRow r).Pairwise (fun a b => a.1 ≠ b.1) :=
    List.pairwise_map.mp hnd1
  have hne2 : (sortRow r').Pairwise (fun a b => a.1 ≠ b.1) :=
    List.pairwise_map.mp hnd2
  have hlt1 : (sortRow r).Pairwise keylt :=
    ((sortRow_sorted r).and hne1).imp (fun h => ⟨h.1, h.2⟩)
  have hlt2 : (sortRow r').Pairwise keylt :=
    ((sortRow_sorted r').and hne2).imp (fun h => ⟨h.1, h.2⟩)
  exact List.eq_of_perm_of_sorted hperm hlt1 hlt2

theorem digestRow_perm {r r' : Row} (h : r.Perm r')
    (hnd : (r.map Prod.fst).Nodup) : digestRow r = digestRow r' := by
  unfold digestRow
  rw [sortRow_eq_of_perm h hnd]

theorem normRow_append (a b : Row) : normRow (a ++ b) = normRow a ++ normRow b := by
  simp [normRow]

theorem normRow_cons (p : String × Scalar) (r : Row) :
    normRow (p :: r) = (p.1, normScalar p.2) :: normRow r := rfl

/-! ### Behavior of the FOS update loop -/

theorem getItem_of_contains {r : Row} {f : String} (h : containsKey r f = true) :
    r.getItem f = .ok (getScalarD r f) := by
  rw [containsKey_eq_isSome] at h
  obtain ⟨v, hv⟩ := Option.isSome_iff_exists.mp h
  simp [Row.getItem, getScalarD, hv]

theorem fosDefaults_complete {r : Row} (h : fosComplete r = true) :
    fosDefaults r = .ok (getScalarD r "field_of_science_id", fosStoredRow r) := by
  simp [fosComplete, fosFields] at h
  obtain ⟨h1, h2, h3, h4, h5, h6, h7, h8, h9, h10, h11, h12, h13⟩ := h
  rw [fosDefaults, getItem_of_contains h1, getItem_of_contains h2,
    getItem_of_contains h3, getItem_of_contains h4, getItem_of_contains h5,
    getItem_of_contains h6, getItem_of_contains h7, getItem_of_contains h8,
    getItem_of_contains h9, getItem_of_contains h10, getItem_of_contains h11,
    getItem_of_contains h12, getItem_of_contains h13]
  rfl

/-- Processing a prefix of records whose digests all match only bumps the
skip counter. -/
theorem fosUpdate_append_match (curdigest : List (Scalar × String)) (fS : Scalar → Bool)
    (pre rest : List (Scalar × Row)) (st : StoreRes)
    (h : ∀ p ∈ pre, matchB curdigest p.1 p.2 = true) :
    fosUpdate curdigest fS (pre ++ rest) st =
      fosUpdate curdigest fS rest { st with skip := st.skip + pre.length } := by
  induction pre generalizing st with
  | nil => simp
  | cons p pre ih =>
    have hp := h p (List.mem_cons_self _ _)
    cases p with
    | mk k r =>
      show fosUpdate curdigest fS ((k, r) :: (pre ++ rest)) st = _
      rw [fosUpdate, if_pos hp, ih _ (fun q hq => h q (List.mem_cons_of_mem _ hq))]
      simp [Nat.add_comm, Nat.add_assoc, Nat.add_left_comm]

theorem fosUpdate_all_match (curdigest : List (Scalar × String)) (fS : Scalar → Bool)
    (items : List (Scalar × Row)) (st : StoreRes)
    (h : ∀ p ∈ items, matchB curdigest p.1 p.2 = true) :
    fosUpdate curdigest fS items st = { st with skip := st.skip + items.length } := by
  have := fosUpdate_append_match curdigest fS items [] st h
  simpa [fosUpdate] using this

theorem containsKey_of_mem {κ α : Type} [BEq κ] [LawfulBEq κ]
    {m : List (κ × α)} {p : κ × α} (h : p ∈ m) : containsKey m p.1 = true := by
  unfold containsKey
  exact List.any_eq_true.mpr ⟨p, h, by simp⟩

theorem lookupKey_curdigestOf (dest : List (Scalar × Row)) (k : Scalar) :
    lookupKey (curdigestOf dest) k =
      (lookupKey dest k).map (fun r => digestRow (normRow r)) := by
  unfold curdigestOf
  exact lookupKey_map_snd (fun r => digestRow (normRow r)) dest k

theorem matchB_contains {dest : List (Scalar × Row)} {k : Scalar} {r : Row}
    (h : matchB (curdigestOf dest) k r = true) : containsKey dest k = true := by
  unfold matchB at h
  rw [containsKey_eq_isSome]
  cases hl : lookupKey (curdigestOf dest) k with
  | none => rw [hl] at h; simp at h
  | some d =>
    rw [lookupKey_curdigestOf] at hl
    cases hq : lookupKey dest k
    · rw [hq] at hl; simp at hl
    · simp

theorem matchB_digest {dest : List (Scalar × Row)} {k : Scalar} {r : Row}
    (h : matchB (curdigestOf dest) k r = true) :
    ∃ v, lookupKey dest k = some v ∧ digestRow (normRow v) = digestRow r := by
  unfold matchB at h
  cases hl : lookupKey (curdigestOf dest) k with
  | none => rw [hl] at h; simp at h
  | some d =>
    rw [hl] at h
    have hd : digestRow r = d := by simpa using h
    rw [lookupKey_curdigestOf] at hl
    cases hq : lookupKey dest k with
    | none => rw [hq] at hl; simp at hl
    | some v =>
      rw [hq] at hl
      simp at hl
      exact ⟨v, rfl, by rw [hl, hd]⟩

theorem containsKey_keys_mem {κ α : Type} [BEq κ] [LawfulBEq κ]
    (m : List (κ × α)) (k : κ) :
    containsKey m k = true ↔ k ∈ m.map Prod.fst := by
  induction m with
  | nil => simp [containsKey_nil]
  | cons p rest ih =>
    rw [containsKey_cons, Bool.or_eq_true]
    simp only [List.map_cons, List.mem_cons, beq_iff_eq, ih]
    constructor
    · rintro (h | h)
      · exact Or.inl h.symm
      · exact Or.inr h
    · rintro (h | h)
      · exact Or.inl h.symm
      · exact Or.inr h

theorem beq_false_of_ne {κ : Type} [BEq κ] [LawfulBEq κ] {a b : κ} (h : a ≠ b) :
    (a == b) = false := by
  cases hq : a == b
  · rfl
  · exact absurd (by simpa using hq) h

/-- The id value `update_or_create` keys on equals the snapshot key. -/
theorem getScalarD_id {k : Scalar} {r : Row}
    (hid : Row.getItem r "field_of_science_id" = Except.ok k) :
    getScalarD r "field_of_science_id" = k := by
  unfold Row.getItem at hid
  cases hl : lookupKey r "field_of_science_id" with
  | none => rw [hl] at hid; simp at hid
  | some v =>
    rw [hl] at hid
    simp at hid
    simp [getScalarD, hl, hid]

/-- Main characterization of the update loop on well-formed snapshots with
no save failures: nothing is raised, the returned flag and message are
untouched, and the store's key set grows by exactly the snapshot keys. -/
theorem fosUpdate_main (dest : List (Scalar × Row)) (fS : Scalar → Bool)
    (items : List (Scalar × Row)) (st : StoreRes)
    (hc : ∀ p ∈ items, fosComplete p.2 = true ∧
      Row.getItem p.2 "field_of_science_id" = Except.ok p.1)
    (hs : ∀ j, fS j = false)
    (hsub : ∀ j, containsKey dest j = true → containsKey st.store j = true) :
    (fosUpdate (curdigestOf dest) fS items st).raised = st.raised ∧
    (fosUpdate (curdigestOf dest) fS items st).ok = st.ok ∧
    (fosUpdate (curdigestOf dest) fS items st).msg = st.msg ∧
    (fosUpdate (curdigestOf dest) fS items st).del = st.del ∧
    (∀ j, containsKey (fosUpdate (curdigestOf dest) fS items st).store j =
      (containsKey st.store j || containsKey items j)) := by
  induction items generalizing st with
  | nil =>
    refine ⟨rfl, rfl, rfl, rfl, fun j => ?_⟩
    simp [fosUpdate, containsKey_nil]
  | cons q rest ih =>
    obtain ⟨k, r⟩ := q
    obtain ⟨hcr, hid⟩ := hc (k, r) (List.mem_cons_self _ _)
    have hcrest : ∀ p ∈ rest, fosComplete p.2 = true ∧
        Row.getItem p.2 "field_of_science_id" = Except.ok p.1 :=
      fun p hp => hc p (List.mem_cons_of_mem _ hp)
    by_cases hm : matchB (curdigestOf dest) k r = true
    · rw [show fosUpdate (curdigestOf dest) fS ((k, r) :: rest) st =
          fosUpdate (curdigestOf dest) fS rest { st with skip := st.skip + 1 } by
        simp [fosUpdate, hm]]
      obtain ⟨h1, h2, h3, h4, h5⟩ := ih { st with skip := st.skip + 1 } hcrest hsub
      refine ⟨h1, h2, h3, h4, fun j => ?_⟩
      rw [h5 j]
      show (containsKey st.store j || containsKey rest j) = _
      rw [containsKey_cons]
      by_cases hkj : (k == j) = true
      · have hkj' : k = j := by simpa using hkj
        subst hkj'
        have : containsKey st.store k = true := hsub k (matchB_contains hm)
        simp [this]
      · simp only [Bool.not_eq_true] at hkj
        simp [hkj]
    · simp only [Bool.not_eq_true] at hm
      have hstep : fosUpdate (curdigestOf dest) fS ((k, r) :: rest) st =
          fosUpdate (curdigestOf dest) fS rest
            { st with store := setKey st.store k (fosStoredRow r), upd := st.upd + 1 } := by
        simp [fosUpdate, hm, fosDefaults_complete hcr, getScalarD_id hid, hs k]
      rw [hstep]
      have hsub' : ∀ j, containsKey dest j = true →
          containsKey (setKey st.store k (fosStoredRow r)) j = true := by
        intro j hj
        rw [containsKey_setKey]
        simp [hsub j hj]
      obtain ⟨h1, h2, h3, h4, h5⟩ := ih
        { st with store := setKey st.store k (fosStoredRow r), upd := st.upd + 1 }
        hcrest hsub'
      refine ⟨h1, h2, h3, h4, fun j => ?_⟩
      rw [h5 j]
      show (containsKey (setKey st.store k (fosStoredRow r)) j || containsKey rest j) = _
      rw [containsKey_setKey, containsKey_cons, Bool.or_assoc]

/-- The update loop does not touch store entries outside the snapshot keys. -/
theorem fosUpdate_frame (dest : List (Scalar × Row)) (fS : Scalar → Bool)
    (items : List (Scalar × Row)) (st : StoreRes) (j : Scalar)
    (hc : ∀ p ∈ items, fosComplete p.2 = true ∧
      Row.getItem p.2 "field_of_science_id" = Except.ok p.1)
    (hj : containsKey items j = false) :
    lookupKey (fosUpdate (curdigestOf dest) fS items st).store j = lookupKey st.store j := by
  induction items generalizing st with
  | nil => rfl
  | cons q rest ih =>
    obtain ⟨k, r⟩ := q
    obtain ⟨hcr, hid⟩ := hc (k, r) (List.mem_cons_self _ _)
    have hcrest : ∀ p ∈ rest, fosComplete p.2 = true ∧
        Row.getItem p.2 "field_of_science_id" = Except.ok p.1 :=
      fun p hp => hc p (List.mem_cons_of_mem _ hp)
    rw [containsKey_cons] at hj
    have hkj : (k == j) = false := by
      cases hq : k == j
      · rfl
      · rw [hq] at hj; simp at hj
    have hjrest : containsKey rest j = false := by
      cases hq : containsKey rest j
      · rfl
      · rw [hq] at hj; simp at hj
    by_cases hm : matchB (curdigestOf dest) k r = true
    · rw [show fosUpdate (curdigestOf dest) fS ((k, r) :: rest) st =
          fosUpdate (curdigestOf dest) fS rest { st with skip := st.skip + 1 } by
        simp [fosUpdate, hm]]
      exact ih _ hcrest hjrest
    · simp only [Bool.not_eq_true] at hm
      by_cases hf : fS k = true
      · rw [show fosUpdate (curdigestOf dest) fS ((k, r) :: rest) st =
            { st with ok := false, msg := saveErrMsg k,
                      errlog := st.errlog ++ [saveErrMsg k] } by
          simp [fosUpdate, hm, fosDefaults_complete hcr, getScalarD_id hid, hf]]
      · simp only [Bool.not_eq_true] at hf
        rw [show fosUpdate (curdigestOf dest) fS ((k, r) :: rest) st =
            fosUpdate (curdigestOf dest) fS rest
              { st with store := setKey st.store k (fosStoredRow r), upd := st.upd + 1 } by
          simp [fosUpdate, hm, fosDefaults_complete hcr, getScalarD_id hid, hf]]
        rw [ih _ hcrest hjrest]
        exact lookupKey_setKey_ne _ _ _ _ (by
          cases hq : j == k
          · rfl
          · have : j = k := by simpa using hq
            subst this
            simp at hkj)

/-- After a failure-free update loop on a snapshot with pairwise-distinct
keys, every snapshot key maps either to a destination record with matching
digest (the skip case) or to the freshly stored image of the source
record. -/
theorem fosUpdate_value (dest : List (Scalar × Row)) (fS : Scalar → Bool)
    (items : List (Scalar × Row)) (st : StoreRes)
    (hc : ∀ p ∈ items, fosComplete p.2 = true ∧
      Row.getItem p.2 "field_of_science_id" = Except.ok p.1)
    (hs : ∀ j, fS j = false)
    (hnd : (items.map Prod.fst).Nodup)
    (hlk : ∀ p ∈ items, lookupKey st.store p.1 = lookupKey dest p.1) :
    ∀ p ∈ items, ∃ v,
      lookupKey (fosUpdate (curdigestOf dest) fS items st).store p.1 = some v ∧
      (digestRow (normRow v) = digestRow p.2 ∨ v = fosStoredRow p.2) := by
  induction items generalizing st with
  | nil => intro p hp; cases hp
  | cons q rest ih =>
    obtain ⟨k, r⟩ := q
    obtain ⟨hcr, hid⟩ := hc (k, r) (List.mem_cons_self _ _)
    have hcrest : ∀ p ∈ rest, fosComplete p.2 = true ∧
        Row.getItem p.2 "field_of_science_id" = Except.ok p.1 :=
      fun p hp => hc p (List.mem_cons_of_mem _ hp)
    have hknotin : k ∉ rest.map Prod.fst := by
      have := hnd
      simp only [List.map_cons, List.nodup_cons] at this
      exact this.1
    have hkrest : containsKey rest k = false := by
      cases hq : containsKey rest k
      · rfl
      · exact absurd ((containsKey_keys_mem rest k).mp hq) hknotin
    intro p hp
    rcases List.mem_cons.mp hp with hph | hpt
    · -- p is the head (k, r)
      rw [hph]
      by_cases hm : matchB (curdigestOf dest) k r = true
      · rw [show fosUpdate (curdigestOf dest) fS ((k, r) :: rest) st =
            fosUpdate (curdigestOf dest) fS rest { st with skip := st.skip + 1 } by
          simp [fosUpdate, hm]]
        obtain ⟨v, hv, hdig⟩ := matchB_digest hm
        refine ⟨v, ?_, Or.inl hdig⟩
        rw [fosUpdate_frame dest fS rest _ k hcrest hkrest]
        show lookupKey st.store k = some v
        rw [hlk (k, r) (List.mem_cons_self _ _)]
        exact hv
      · simp only [Bool.not_eq_true] at hm
        rw [show fosUpdate (curdigestOf dest) fS ((k, r) :: rest) st =
            fosUpdate (curdigestOf dest) fS rest
              { st with store := setKey st.store k (fosStoredRow r), upd := st.upd + 1 } by
          simp [fosUpdate, hm, fosDefaults_complete hcr, getScalarD_id hid, hs k]]
        refine ⟨fosStoredRow r, ?_, Or.inr rfl⟩
        rw [fosUpdate_frame dest fS rest _ k hcrest hkrest]
        exact lookupKey_setKey_self _ _ _
    · -- p is in the tail
      have hpk : p.1 ≠ k := by
        intro hq
        exact hknotin (hq ▸ List.mem_map_of_mem Prod.fst hpt)
      have step : ∀ st' : StoreRes,
          (∀ p' ∈ rest, lookupKey st'.store p'.1 = lookupKey dest p'.1) →
          fosUpdate (curdigestOf dest) fS ((k, r) :: rest) st =
            fosUpdate (curdigestOf dest) fS rest st' →
          ∃ v, lookupKey (fosUpdate (curdigestOf dest) fS ((k, r) :: rest) st).store p.1 =
              some v ∧
            (digestRow (normRow v) = digestRow p.2 ∨ v = fosStoredRow p.2) := by
        intro st' hlk' heq
        rw [heq]
        exact ih st' hcrest (List.Nodup.of_cons (by simpa using hnd)) hlk' p hpt
      by_cases hm : matchB (curdigestOf dest) k r = true
      · refine step { st with skip := st.skip + 1 } ?_ (by simp [fosUpdate, hm])
        intro p' hp'
        exact hlk p' (List.mem_cons_of_mem _ hp')
      · simp only [Bool.not_eq_true] at hm
        refine step
          { st with store := setKey st.store k (fosStoredRow r), upd := st.upd + 1 } ?_
          (by simp [fosUpdate, hm, fosDefaults_complete hcr, getScalarD_id hid, hs k])
        intro p' hp'
        show lookupKey (setKey st.store k (fosStoredRow r)) p'.1 = _
        rw [lookupKey_setKey_ne _ _ _ _ (beq_false_of_ne (by
          intro hq
          exact hknotin (hq ▸ List.mem_map_of_mem Prod.fst hp')))]
        exact hlk p' (List.mem_cons_of_mem _ hp')

/-! ### Behavior of the FOS delete loop -/

theorem fosDelete_presv (new_items : List (Scalar × Row)) (fD : Scalar → Bool)
    (cur : List (Scalar × Row)) (st : StoreRes) :
    (fosDelete new_items fD cur st).raised = st.raised ∧
    (fosDelete new_items fD cur st).ok = st.ok ∧
    (fosDelete new_items fD cur st).msg = st.msg ∧
    (fosDelete new_items fD cur st).upd = st.upd ∧
    (fosDelete new_items fD cur st).skip = st.skip := by
  induction cur generalizing st with
  | nil => exact ⟨rfl, rfl, rfl, rfl, rfl⟩
  | cons q rest ih =>
    obtain ⟨c, v⟩ := q
    by_cases h1 : containsKey new_items c = true
    · rw [show fosDelete new_items fD ((c, v) :: rest) st =
          fosDelete new_items fD rest st by simp [fosDelete, h1]]
      exact ih st
    · simp only [Bool.not_eq_true] at h1
      by_cases h2 : fD c = true
      · rw [show fosDelete new_items fD ((c, v) :: rest) st =
            fosDelete new_items fD rest
              { st with errlog := st.errlog ++ [delErrMsg c] } by
          simp [fosDelete, h1, h2]]
        exact ih _
      · simp only [Bool.not_eq_true] at h2
        rw [show fosDelete new_items fD ((c, v) :: rest) st =
            fosDelete new_items fD rest
              { st with store := removeKey st.store c, del := st.del + 1 } by
          simp [fosDelete, h1, h2]]
        exact ih _

theorem fosDelete_none (new_items : List (Scalar × Row)) (fD : Scalar → Bool)
    (cur : List (Scalar × Row)) (st : StoreRes)
    (h : ∀ p ∈ cur, containsKey new_items p.1 = true) :
    fosDelete new_items fD cur st = st := by
  induction cur with
  | nil => rfl
  | cons q rest ih =>
    obtain ⟨c, v⟩ := q
    rw [show fosDelete new_items fD ((c, v) :: rest) st =
        fosDelete new_items fD rest st by
      simp [fosDelete, h (c, v) (List.mem_cons_self _ _)]]
    exact ih (fun p hp => h p (List.mem_cons_of_mem _ hp))

theorem fosDelete_frame (new_items : List (Scalar × Row)) (fD : Scalar → Bool)
    (cur : List (Scalar × Row)) (st : StoreRes) (j : Scalar)
    (hj : containsKey new_items j = true) :
    lookupKey (fosDelete new_items fD cur st).store j = lookupKey st.store j := by
  induction cur generalizing st with
  | nil => rfl
  | cons q rest ih =>
    obtain ⟨c, v⟩ := q
    by_cases h1 : containsKey new_items c = true
    · rw [show fosDelete new_items fD ((c, v) :: rest) st =
          fosDelete new_items fD rest st by simp [fosDelete, h1]]
      exact ih st
    · simp only [Bool.not_eq_true] at h1
      have hcj : (j == c) = false := by
        cases hq : j == c
        · rfl
        · have : j = c := by simpa using hq
          subst this
          rw [hj] at h1
          cases h1
      by_cases h2 : fD c = true
      · rw [show fosDelete new_items fD ((c, v) :: rest) st =
            fosDelete new_items fD rest
              { st with errlog := st.errlog ++ [delErrMsg c] } by
          simp [fosDelete, h1, h2]]
        exact ih _
      · simp only [Bool.not_eq_true] at h2
        rw [show fosDelete new_items fD ((c, v) :: rest) st =
            fosDelete new_items fD rest
              { st with store := removeKey st.store c, del := st.del + 1 } by
          simp [fosDelete, h1, h2]]
        rw [ih _]
        exact lookupKey_removeKey_ne _ _ _ hcj

theorem fosDelete_keys (new_items : List (Scalar × Row)) (fD : Scalar → Bool)
    (cur : List (Scalar × Row)) (st : StoreRes)
    (hd : ∀ j, fD j = false) :
    ∀ j, containsKey (fosDelete new_items fD cur st).store j =
      (containsKey st.store j &&
        !(containsKey cur j && !containsKey new_items j)) := by
  induction cur generalizing st with
  | nil => intro j; simp [fosDelete, containsKey_nil]
  | cons q rest ih =>
    obtain ⟨c, v⟩ := q
    intro j
    by_cases h1 : containsKey new_items c = true
    · rw [show fosDelete new_items fD ((c, v) :: rest) st =
          fosDelete new_items fD rest st by simp [fosDelete, h1]]
      rw [ih st j, containsKey_cons]
      by_cases hcj : (c == j) = true
      · have : c = j := by simpa using hcj
        subst this
        simp [h1]
      · simp only [Bool.not_eq_true] at hcj
        simp [hcj]
    · simp only [Bool.not_eq_true] at h1
      rw [show fosDelete new_items fD ((c, v) :: rest) st =
          fosDelete new_items fD rest
            { st with store := removeKey st.store c, del := st.del + 1 } by
        simp [fosDelete, h1, hd c]]
      rw [ih _ j]
      show (containsKey (removeKey st.store c) j && _) = _
      rw [containsKey_removeKey, containsKey_cons]
      by_cases hcj : (c == j) = true
      · have : c = j := by simpa using hcj
        subst this
        simp [h1]
      · simp only [Bool.not_eq_true] at hcj
        have hjc : (j == c) = false := by
          cases hq : j == c
          · rfl
          · have : j = c := by simpa using hq
            subst this
            simp at hcj
        simp [hcj, hjc, Bool.and_assoc]

theorem fosDelete_count (new_items : List (Scalar × Row)) (fD : Scalar → Bool)
    (cur : List (Scalar × Row)) (st : StoreRes) :
    (fosDelete new_items fD cur st).del =
      st.del + cur.countP (fun p => !containsKey new_items p.1 && !fD p.1) := by
  induction cur generalizing st with
  | nil => simp [fosDelete]
  | cons q rest ih =>
    obtain ⟨c, v⟩ := q
    by_cases h1 : containsKey new_items c = true
    · rw [show fosDelete new_items fD ((c, v) :: rest) st =
          fosDelete new_items fD rest st by simp [fosDelete, h1]]
      rw [ih st]
      simp [List.countP_cons, h1]
    · simp only [Bool.not_eq_true] at h1
      by_cases h2 : fD c = true
      · rw [show fosDelete new_items fD ((c, v) :: rest) st =
            fosDelete new_items fD rest
              { st with errlog := st.errlog ++ [delErrMsg c] } by
          simp [fosDelete, h1, h2]]
        rw [ih _]
        simp [List.countP_cons, h1, h2]
      · simp only [Bool.not_eq_true] at h2
        rw [show fosDelete new_items fD ((c, v) :: rest) st =
            fosDelete new_items fD rest
              { st with store := removeKey st.store c, del := st.del + 1 } by
          simp [fosDelete, h1, h2]]
        rw [ih _]
        simp [List.countP_cons, h1, h2]
        omega

/-! ### Specifications of the whole store step -/

/-- A failure-free store on a well-formed snapshot returns `(True, '')`
and leaves the destination keyed exactly by the snapshot keys. -/
theorem fosStore_spec_keys (dest new_items : List (Scalar × Row)) (fS fD : Scalar → Bool)
    (hc : ∀ p ∈ new_items, fosComplete p.2 = true ∧
      Row.getItem p.2 "field_of_science_id" = Except.ok p.1)
    (hs : ∀ j, fS j = false) (hd : ∀ j, fD j = false) :
    (fosStore dest new_items fS fD).raised = none ∧
    (fosStore dest new_items fS fD).ok = true ∧
    (fosStore dest new_items fS fD).msg = "" ∧
    (∀ j, containsKey (fosStore dest new_items fS fD).store j =
      containsKey new_items j) := by
  obtain ⟨h1, h2, h3, h4, h5⟩ :=
    fosUpdate_main dest fS new_items { store := dest } hc hs (fun j h => h)
  have hrew : fosStore dest new_items fS fD =
      fosDelete new_items fD dest
        (fosUpdate (curdigestOf dest) fS new_items { store := dest }) := by
    unfold fosStore
    simp [h1, h2]
  obtain ⟨d1, d2, d3, d4, d5⟩ :=
    fosDelete_presv new_items fD dest
      (fosUpdate (curdigestOf dest) fS new_items { store := dest })
  refine ⟨by rw [hrew, d1, h1], by rw [hrew, d2, h2], by rw [hrew, d3, h3],
    fun j => ?_⟩
  rw [hrew, fosDelete_keys new_items fD dest _ hd j, h5 j]
  show ((containsKey dest j || containsKey new_items j) && _) = _
  by_cases hD : containsKey dest j = true <;>
    by_cases hN : containsKey new_items j = true <;>
      simp [hD, hN]

/-- When every snapshot record's digest matches the destination digest,
the store issues no writes at all: everything is counted as skipped,
nothing is updated, and the records are left untouched. -/
theorem fosStore_spec_allmatch (dest new_items : List (Scalar × Row)) (fS fD : Scalar → Bool)
    (hm : ∀ p ∈ new_items, lookupKey (curdigestOf dest) p.1 = some (digestRow p.2)) :
    (fosStore dest new_items fS fD).raised = none ∧
    (fosStore dest new_items fS fD).ok = true ∧
    (fosStore dest new_items fS fD).skip = new_items.length ∧
    (fosStore dest new_items fS fD).upd = 0 ∧
    (fosStore dest new_items fS fD).del =
      dest.countP (fun p => !containsKey new_items p.1 && !fD p.1) ∧
    (∀ p ∈ new_items,
      lookupKey (fosStore dest new_items fS fD).store p.1 = lookupKey dest p.1) := by
  have hmb : ∀ p ∈ new_items, matchB (curdigestOf dest) p.1 p.2 = true := by
    intro p hp
    unfold matchB
    rw [hm p hp]
    simp
  have hall := fosUpdate_all_match (curdigestOf dest) fS new_items { store := dest } hmb
  have hrew : fosStore dest new_items fS fD =
      fosDelete new_items fD dest
        (fosUpdate (curdigestOf dest) fS new_items { store := dest }) := by
    unfold fosStore
    simp [hall]
  obtain ⟨d1, d2, d3, d4, d5⟩ :=
    fosDelete_presv new_items fD dest
      (fosUpdate (curdigestOf dest) fS new_items { store := dest })
  have hcount := fosDelete_count new_items fD dest
    (fosUpdate (curdigestOf dest) fS new_items { store := dest })
  refine ⟨by rw [hrew, d1, hall], by rw [hrew, d2, hall], ?_, ?_, ?_, ?_⟩
  · rw [hrew, d5, hall]
    simp
  · rw [hrew, d4, hall]
  · rw [hrew, hcount, hall]
    simp
  · intro p hp
    rw [hrew, fosDelete_frame new_items fD dest _ p.1 (containsKey_of_mem hp), hall]

/-- After a failure-free run, every snapshot key maps to a record that is
either the original destination record (whose digest matched) or the
freshly stored image of the source record. -/
theorem fosStore_spec_value (dest new_items : List (Scalar × Row)) (fS fD : Scalar → Bool)
    (hc : ∀ p ∈ new_items, fosComplete p.2 = true ∧
      Row.getItem p.2 "field_of_science_id" = Except.ok p.1)
    (hs : ∀ j, fS j = false)
    (hnd : (new_items.map Prod.fst).Nodup) :
    ∀ p ∈ new_items, ∃ v,
      lookupKey (fosStore dest new_items fS fD).store p.1 = some v ∧
      (digestRow (normRow v) = digestRow p.2 ∨ v = fosStoredRow p.2) := by
  obtain ⟨h1, h2, _, _, _⟩ :=
    fosUpdate_main dest fS new_items { store := dest } hc hs (fun j h => h)
  have hrew : fosStore dest new_items fS fD =
      fosDelete new_items fD dest
        (fosUpdate (curdigestOf dest) fS new_items { store := dest }) := by
    unfold fosStore
    simp [h1, h2]
  intro p hp
  obtain ⟨v, hv, hcase⟩ :=
    fosUpdate_value dest fS new_items { store := dest } hc hs hnd
      (fun _ _ => rfl) p hp
  refine ⟨v, ?_, hcase⟩
  rw [hrew, fosDelete_frame new_items fD dest _ p.1 (containsKey_of_mem hp)]
  exact hv

/-! ### Claim C1 -/

/-- C1: for every destination snapshot and every well-formed source
snapshot (each record carries its columns and is keyed by its own
`field_of_science_id`), a reconciliation run that completes without error
(no per-record save or delete failure) returns `(True, '')` and leaves the
destination's identifier set exactly equal to the source's identifier set:
every source identifier has exactly one destination record (the store is
id-keyed) and every stale destination identifier is deleted. -/
theorem fos_store_reconciles_key_sets (dest new_items : List (Scalar × Row))
    (fS fD : Scalar → Bool)
    (hc : ∀ p ∈ new_items, fosComplete p.2 = true ∧
      Row.getItem p.2 "field_of_science_id" = Except.ok p.1)
    (hs : ∀ j, fS j = false) (hd : ∀ j, fD j = false) :
    (fosStore dest new_items fS fD).raised = none ∧
    (fosStore dest new_items fS fD).ok = true ∧
    (∀ j, containsKey (fosStore dest new_items fS fD).store j =
      containsKey new_items j) := by
  obtain ⟨a, b, _, d⟩ := fosStore_spec_keys dest new_items fS fD hc hs hd
  exact ⟨a, b, d⟩

/-- Witness for C1 at a concrete input: one stale destination record and a
one-record snapshot. -/
theorem fos_store_reconciles_key_sets_witness :
    (∀ p ∈ [((Scalar.int 1), exFosRow)], fosComplete p.2 = true ∧
      Row.getItem p.2 "field_of_science_id" = Except.ok p.1) ∧
    (∀ j, noFail j = false) ∧
    ((fosStore [(Scalar.int 9, [])] [(Scalar.int 1, exFosRow)] noFail noFail).raised = none ∧
     (fosStore [(Scalar.int 9, [])] [(Scalar.int 1, exFosRow)] noFail noFail).ok = true ∧
     (∀ j, containsKey
        (fosStore [(Scalar.int 9, [])] [(Scalar.int 1, exFosRow)] noFail noFail).store j =
        containsKey [(Scalar.int 1, exFosRow)] j)) :=
  ⟨by decide, fun _ => rfl,
    fos_store_reconciles_key_sets [(Scalar.int 9, [])] [(Scalar.int 1, exFosRow)]
      noFail noFail (by decide) (fun _ => rfl) (fun _ => rfl)⟩

/-! ### Claim C2 -/

/-- C2 counterexample: the claim asserts digest-based skipping for all
three routers, but the persons router's store performs no digest
comparison at all.  Here the destination already holds exactly the model
instance that storing the source record builds (`pUpdateStep` output), so
the record is unchanged in the strongest sense, yet the store writes it
again (update count 1) and the skip counter stays 0. -/
theorem persons_store_writes_unchanged_record :
    pUpdateStep (.dict exPersonDict) = .ok exPersonModel ∧
    (personsStore [(Scalar.int 5, exPersonModel)]
      [(Scalar.int 5, .dict exPersonDict)] noFail).upd = 1 ∧
    (personsStore [(Scalar.int 5, exPersonModel)]
      [(Scalar.int 5, .dict exPersonDict)] noFail).skip = 0 := by
  decide

/-- C2 (amended): for the FOS router's store operation, every source
record whose canonicalized content digest equals the corresponding
destination record's digest incurs zero writes: the skip counter counts
it, the update counter does not, and its destination record is untouched.
The persons and users routers implement no digest-based skip. -/
theorem fos_store_skips_digest_matches (dest new_items : List (Scalar × Row))
    (fS fD : Scalar → Bool)
    (hm : ∀ p ∈ new_items, lookupKey (curdigestOf dest) p.1 = some (digestRow p.2)) :
    (fosStore dest new_items fS fD).ok = true ∧
    (fosStore dest new_items fS fD).skip = new_items.length ∧
    (fosStore dest new_items fS fD).upd = 0 ∧
    (∀ p ∈ new_items,
      lookupKey (fosStore dest new_items fS fD).store p.1 = lookupKey dest p.1) := by
  obtain ⟨_, b, c, d, _, f⟩ := fosStore_spec_allmatch dest new_items fS fD hm
  exact ⟨b, c, d, f⟩

/-- Witness for amended C2: a destination record whose digest matches the
incoming record. -/
theorem fos_store_skips_digest_matches_witness :
    (∀ p ∈ [((Scalar.int 2), exFosRowS)],
      lookupKey (curdigestOf [(Scalar.int 2, exFosRowS)]) p.1 = some (digestRow p.2)) ∧
    ((fosStore [(Scalar.int 2, exFosRowS)] [(Scalar.int 2, exFosRowS)] noFail noFail).ok = true ∧
     (fosStore [(Scalar.int 2, exFosRowS)] [(Scalar.int 2, exFosRowS)] noFail noFail).skip = 1 ∧
     (fosStore [(Scalar.int 2, exFosRowS)] [(Scalar.int 2, exFosRowS)] noFail noFail).upd = 0 ∧
     (∀ p ∈ [((Scalar.int 2), exFosRowS)],
       lookupKey (fosStore [(Scalar.int 2, exFosRowS)] [(Scalar.int 2, exFosRowS)]
         noFail noFail).store p.1 = lookupKey [(Scalar.int 2, exFosRowS)] p.1)) :=
  ⟨by decide,
    fos_store_skips_digest_matches [(Scalar.int 2, exFosRowS)] [(Scalar.int 2, exFosRowS)]
      noFail noFail (by decide)⟩

/-! ### Claim C3 -/

/-- C3 counterexample: reconciling the same snapshot twice is NOT
idempotent for this row.  Its boolean `is_active` value is stored through
Python `str()` as the string `'True'`; on the second run the destination
digest (over `'True'`) no longer matches the source digest (over the
boolean `True`), so the record is updated again: the second run performs
1 update, not 0. -/
theorem fos_store_not_idempotent_on_bool_field :
    (fosStore [] [(Scalar.int 1, exFosRow)] noFail noFail).ok = true ∧
    (fosStore (fosStore [] [(Scalar.int 1, exFosRow)] noFail noFail).store
      [(Scalar.int 1, exFosRow)] noFail noFail).upd = 1 ∧
    (fosStore (fosStore [] [(Scalar.int 1, exFosRow)] noFail noFail).store
      [(Scalar.int 1, exFosRow)] noFail noFail).skip = 0 := by
  decide

/-- C3 (amended): running reconciliation twice with an unchanged source
yields zero updates and zero deletes on the second run PROVIDED every
record survives the store round-trip, i.e. the none-normalized stored
image of each record has the same digest as the record itself (true when
all stringified columns hold strings not spelling "none"; false e.g. for
boolean columns). -/
theorem fos_store_idempotent_on_roundtrip_rows (dest new_items : List (Scalar × Row))
    (fS1 fD1 fS2 fD2 : Scalar → Bool)
    (hc : ∀ p ∈ new_items, fosComplete p.2 = true ∧
      Row.getItem p.2 "field_of_science_id" = Except.ok p.1)
    (hrt : ∀ p ∈ new_items, digestRow (normRow (fosStoredRow p.2)) = digestRow p.2)
    (hnd : (new_items.map Prod.fst).Nodup)
    (hs1 : ∀ j, fS1 j = false) (hd1 : ∀ j, fD1 j = false) :
    (fosStore (fosStore dest new_items fS1 fD1).store new_items fS2 fD2).upd = 0 ∧
    (fosStore (fosStore dest new_items fS1 fD1).store new_items fS2 fD2).del = 0 ∧
    (fosStore (fosStore dest new_items fS1 fD1).store new_items fS2 fD2).ok = true ∧
    (fosStore (fosStore dest new_items fS1 fD1).store new_items fS2 fD2).skip =
      new_items.length := by
  have hval := fosStore_spec_value dest new_items fS1 fD1 hc hs1 hnd
  have hkeys := (fosStore_spec_keys dest new_items fS1 fD1 hc hs1 hd1).2.2.2
  have hm : ∀ p ∈ new_items,
      lookupKey (curdigestOf (fosStore dest new_items fS1 fD1).store) p.1 =
        some (digestRow p.2) := by
    intro p hp
    obtain ⟨v, hv, hcase⟩ := hval p hp
    rw [lookupKey_curdigestOf, hv]
    rcases hcase with hcd | hst
    · simp [hcd]
    · rw [hst]
      simp [hrt p hp]
  obtain ⟨a1, a2, a3, a4, a5, a6⟩ :=
    fosStore_spec_allmatch (fosStore dest new_items fS1 fD1).store new_items fS2 fD2 hm
  refine ⟨a4, ?_, a2, a3⟩
  rw [a5]
  apply List.countP_eq_zero.mpr
  intro p hp
  have hin : containsKey new_items p.1 = true := by
    rw [← hkeys p.1]
    exact containsKey_of_mem hp
  simp [hin]

/-- Witness for amended C3: an all-string row round-trips, and the second
run is a pure skip. -/
theorem fos_store_idempotent_on_roundtrip_rows_witness :
    (∀ p ∈ [((Scalar.int 2), exFosRowS)], fosComplete p.2 = true ∧
      Row.getItem p.2 "field_of_science_id" = Except.ok p.1) ∧
    (∀ p ∈ [((Scalar.int 2), exFosRowS)],
      digestRow (normRow (fosStoredRow p.2)) = digestRow p.2) ∧
    (([((Scalar.int 2), exFosRowS)].map Prod.fst).Nodup) ∧
    ((fosStore (fosStore [] [(Scalar.int 2, exFosRowS)] noFail noFail).store
        [(Scalar.int 2, exFosRowS)] noFail noFail).upd = 0 ∧
     (fosStore (fosStore [] [(Scalar.int 2, exFosRowS)] noFail noFail).store
        [(Scalar.int 2, exFosRowS)] noFail noFail).del = 0 ∧
     (fosStore (fosStore [] [(Scalar.int 2, exFosRowS)] noFail noFail).store
        [(Scalar.int 2, exFosRowS)] noFail noFail).ok = true ∧
     (fosStore (fosStore [] [(Scalar.int 2, exFosRowS)] noFail noFail).store
        [(Scalar.int 2, exFosRowS)] noFail noFail).skip = 1) :=
  ⟨by decide, by decide, by decide,
    fos_store_idempotent_on_roundtrip_rows [] [(Scalar.int 2, exFosRowS)]
      noFail noFail noFail noFail (by decide) (by decide) (by decide)
      (fun _ => rfl) (fun _ => rfl)⟩

/-! ### Claim C4 -/

/-- C4: digest computation is order-independent: for every record (a dict,
hence with pairwise-distinct keys) and every permutation of its field
insertion order, the computed content digest is the same, because the
fields are sorted by key before stringification and hashing. -/
theorem digest_insertion_order_independent (r r2 : Row) (hperm : r.Perm r2)
    (hnd : (r.map Prod.fst).Nodup) : digestRow r = digestRow r2 :=
  digestRow_perm hperm hnd

/-- Witness for C4 on a concrete two-field record and its swap. -/
theorem digest_insertion_order_independent_witness :
    ([(("a" : String), Scalar.int 1), ("b", Scalar.null)].Perm
      [("b", Scalar.null), ("a", Scalar.int 1)]) ∧
    (([(("a" : String), Scalar.int 1), ("b", Scalar.null)].map Prod.fst).Nodup) ∧
    digestRow [(("a" : String), Scalar.int 1), ("b", Scalar.null)] =
      digestRow [("b", Scalar.null), ("a", Scalar.int 1)] :=
  ⟨by decide, by decide,
    digest_insertion_order_independent _ _ (by decide) (by decide)⟩

/-! ### Claim C5 -/

/-- C5 counterexample: the normalization law fails for the empty string.
Only strings spelling "none" (case-insensitively) are normalized to
`None`; the empty string is left alone, so two records identical except
that one field holds `""` and the other `None` hash differently. -/
theorem digest_empty_string_not_null_normalized :
    digestRow (normRow [("name", Scalar.str "X"), ("dept", Scalar.str "")]) ≠
      digestRow (normRow [("name", Scalar.str "X"), ("dept", Scalar.null)]) := by
  decide

/-- C5 (amended): for every pair of records identical except that one
field holds `None`, `"none"`, `"NONE"`, or any casing of "none", the two
records' normalized content digests are equal; the empty string is NOT
normalized and is excluded. -/
theorem digest_null_spellings_equal (pre post : Row) (f : String) (u v : Scalar)
    (hu : normScalar u = Scalar.null) (hv : normScalar v = Scalar.null) :
    digestRow (normRow (pre ++ (f, u) :: post)) =
      digestRow (normRow (pre ++ (f, v) :: post)) := by
  have h : normRow (pre ++ (f, u) :: post) = normRow (pre ++ (f, v) :: post) := by
    rw [normRow_append, normRow_append, normRow_cons, normRow_cons, hu, hv]
  rw [h]

/-- Witness for amended C5: `"NONE"` against `None`. -/
theorem digest_null_spellings_equal_witness :
    normScalar (Scalar.str "NONE") = Scalar.null ∧
    normScalar Scalar.null = Scalar.null ∧
    digestRow (normRow ([("name", Scalar.str "X")] ++ ("dept", Scalar.str "NONE") :: [])) =
      digestRow (normRow ([("name", Scalar.str "X")] ++ ("dept", Scalar.null) :: [])) :=
  ⟨by decide, rfl,
    digest_null_spellings_equal [("name", Scalar.str "X")] [] "dept"
      (Scalar.str "NONE") Scalar.null (by decide) rfl⟩

/-! ### Claim C6 -/

/-- C6 counterexample: a delete failure does NOT abort the run.  With two
stale destination records and a `DataError` raised while deleting the
first, the store logs the failure but continues: the second record is
still deleted (delete count 1) and the run returns `(True, '')`, so it is
reported as successful, contradicting the claim for the delete case. -/
theorem fos_delete_failure_does_not_abort :
    (fosStore [(Scalar.int 1, []), (Scalar.int 2, [])] [] noFail failDel1).ok = true ∧
    (fosStore [(Scalar.int 1, []), (Scalar.int 2, [])] [] noFail failDel1).raised = none ∧
    (fosStore [(Scalar.int 1, []), (Scalar.int 2, [])] [] noFail failDel1).del = 1 ∧
    (fosStore [(Scalar.int 1, []), (Scalar.int 2, [])] [] noFail failDel1).errlog =
      [delErrMsg (Scalar.int 1)] := by
  decide

/-- C6 (amended): a per-record SAVE failure is logged with the offending
identifier, aborts the remainder of the run (no further update or delete is
performed, the store is left as it was) and makes the run report failure.
A per-record DELETE failure, however, is only logged: the delete loop
continues past it and the run still reports success; the delete counter
reaches every non-failing stale record. -/
theorem fos_write_failure_semantics :
    (∀ (dest pre post : List (Scalar × Row)) (k : Scalar) (r : Row) (fS fD : Scalar → Bool),
      (∀ p ∈ pre, matchB (curdigestOf dest) p.1 p.2 = true) →
      matchB (curdigestOf dest) k r = false →
      fosComplete r = true →
      fS (getScalarD r "field_of_science_id") = true →
      (fosStore dest (pre ++ (k, r) :: post) fS fD).ok = false ∧
      (fosStore dest (pre ++ (k, r) :: post) fS fD).raised = none ∧
      (fosStore dest (pre ++ (k, r) :: post) fS fD).msg =
        saveErrMsg (getScalarD r "field_of_science_id") ∧
      (fosStore dest (pre ++ (k, r) :: post) fS fD).upd = 0 ∧
      (fosStore dest (pre ++ (k, r) :: post) fS fD).del = 0 ∧
      (fosStore dest (pre ++ (k, r) :: post) fS fD).store = dest ∧
      (fosStore dest (pre ++ (k, r) :: post) fS fD).errlog =
        [saveErrMsg (getScalarD r "field_of_science_id")]) ∧
    (∀ (dest new_items : List (Scalar × Row)) (fS fD : Scalar → Bool),
      (∀ p ∈ new_items, fosComplete p.2 = true ∧
        Row.getItem p.2 "field_of_science_id" = Except.ok p.1) →
      (∀ j, fS j = false) →
      (fosStore dest new_items fS fD).ok = true ∧
      (fosStore dest new_items fS fD).raised = none ∧
      (fosStore dest new_items fS fD).del =
        dest.countP (fun p => !containsKey new_items p.1 && !fD p.1)) := by
  constructor
  · intro dest pre post k r fS fD hpre hmk hcomp hfs
    have hupd : fosUpdate (curdigestOf dest) fS (pre ++ (k, r) :: post) { store := dest } =
        { raised := none, ok := false,
          msg := saveErrMsg (getScalarD r "field_of_science_id"),
          store := dest, upd := 0, del := 0, skip := pre.length,
          errlog := [saveErrMsg (getScalarD r "field_of_science_id")] } := by
      rw [fosUpdate_append_match (curdigestOf dest) fS pre _ _ hpre]
      simp [fosUpdate, hmk, fosDefaults_complete hcomp, hfs]
    have hres : fosStore dest (pre ++ (k, r) :: post) fS fD =
        { raised := none, ok := false,
          msg := saveErrMsg (getScalarD r "field_of_science_id"),
          store := dest, upd := 0, del := 0, skip := pre.length,
          errlog := [saveErrMsg (getScalarD r "field_of_science_id")] } := by
      unfold fosStore
      simp [hupd]
    rw [hres]
    exact ⟨rfl, rfl, rfl, rfl, rfl, rfl, rfl⟩
  · intro dest new_items fS fD hc hs
    obtain ⟨h1, h2, _, h4, _⟩ :=
      fosUpdate_main dest fS new_items { store := dest } hc hs (fun j h => h)
    have hrew : fosStore dest new_items fS fD =
        fosDelete new_items fD dest
          (fosUpdate (curdigestOf dest) fS new_items { store := dest }) := by
      unfold fosStore
      simp [h1, h2]
    obtain ⟨d1, d2, _, _, _⟩ :=
      fosDelete_presv new_items fD dest
        (fosUpdate (curdigestOf dest) fS new_items { store := dest })
    have hcount := fosDelete_count new_items fD dest
      (fosUpdate (curdigestOf dest) fS new_items { store := dest })
    refine ⟨by rw [hrew, d2, h2], by rw [hrew, d1, h1], ?_⟩
    rw [hrew, hcount, h4]
    simp

/-- Witness for amended C6: both conjuncts applied at concrete inputs: a
save failure on a fresh record aborts with a failed report; with no save
failures and a delete failure on key 1, the run succeeds and still deletes
the other stale record. -/
theorem fos_write_failure_semantics_witness :
    ((∀ p ∈ ([] : List (Scalar × Row)), matchB (curdigestOf []) p.1 p.2 = true) ∧
     matchB (curdigestOf []) (Scalar.int 1) exFosRow = false ∧
     fosComplete exFosRow = true ∧
     failAll (getScalarD exFosRow "field_of_science_id") = true ∧
     (fosStore [] ([] ++ (Scalar.int 1, exFosRow) :: []) failAll noFail).ok = false ∧
     (fosStore [] ([] ++ (Scalar.int 1, exFosRow) :: []) failAll noFail).store = []) ∧
    ((∀ p ∈ ([] : List (Scalar × Row)), fosComplete p.2 = true ∧
       Row.getItem p.2 "field_of_science_id" = Except.ok p.1) ∧
     (∀ j, noFail j = false) ∧
     (fosStore [(Scalar.int 1, []), (Scalar.int 2, [])] [] noFail failDel1).ok = true ∧
     (fosStore [(Scalar.int 1, []), (Scalar.int 2, [])] [] noFail failDel1).del =
       [(Scalar.int 1, ([] : Row)), (Scalar.int 2, [])].countP
         (fun p => !containsKey ([] : List (Scalar × Row)) p.1 && !failDel1 p.1)) :=
  ⟨⟨by decide, by decide, by decide, by decide,
    (fos_write_failure_semantics.1 [] [] [] (Scalar.int 1) exFosRow failAll noFail
      (by decide) (by decide) (by decide) (by decide)).1,
    (fos_write_failure_semantics.1 [] [] [] (Scalar.int 1) exFosRow failAll noFail
      (by decide) (by decide) (by decide) (by decide)).2.2.2.2.2.1⟩,
   ⟨by decide, fun _ => rfl,
    (fos_write_failure_semantics.2 [(Scalar.int 1, []), (Scalar.int 2, [])] []
      noFail failDel1 (by decide) (fun _ => rfl)).1,
    (fos_write_failure_semantics.2 [(Scalar.int 1, []), (Scalar.int 2, [])] []
      noFail failDel1 (by decide) (fun _ => rfl)).2.2⟩⟩

/-! ### Claim C7 -/

/-- C7 counterexample: a query error during source retrieval calls
`exit(1)` from inside `Retrieve_Source` (lines 207-209): the process dies
with zero finish reports, so this error never surfaces through the run
report, contradicting "every error surfaces exactly once via that
report's failure path". -/
theorem fos_query_error_emits_no_report :
    (fosRun true [] [] noFail noFail).reports = [] ∧
    (fosRun true [] [] noFail noFail).exitCode = some 1 := by
  exact ⟨rfl, rfl⟩

/-- C7 (amended): a run whose source retrieval succeeds and whose store
step raises no uncaught exception emits exactly one finish report, whose
success flag is the store outcome (covering both the success and the
per-record-save-failure paths); a query error during retrieval — or an
uncaught exception — terminates the process without emitting any report. -/
theorem fos_run_single_report (srcRows : List Row) (dest : List (Scalar × Row))
    (fS fD : Scalar → Bool) (input : List (Scalar × Row))
    (hret : fosRetrieve srcRows = .ok input)
    (hst : (fosStore dest input fS fD).raised = none) :
    (fosRun false srcRows dest fS fD).reports =
      [((fosStore dest input fS fD).ok, summaryMsg (fosStore dest input fS fD))] ∧
    (fosRun false srcRows dest fS fD).exitCode = none := by
  unfold fosRun
  simp [hret, hst]

/-- Witness for amended C7 at a concrete run. -/
theorem fos_run_single_report_witness :
    fosRetrieve [exFosRow] = .ok [(Scalar.int 1, exFosRow)] ∧
    (fosStore [] [(Scalar.int 1, exFosRow)] noFail noFail).raised = none ∧
    ((fosRun false [exFosRow] [] noFail noFail).reports =
      [((fosStore [] [(Scalar.int 1, exFosRow)] noFail noFail).ok,
        summaryMsg (fosStore [] [(Scalar.int 1, exFosRow)] noFail noFail))] ∧
     (fosRun false [exFosRow] [] noFail noFail).exitCode = none) :=
  ⟨by decide, by decide,
    fos_run_single_report [exFosRow] [] noFail noFail [(Scalar.int 1, exFosRow)]
      (by decide) (by decide)⟩

/-! ### Claim C8 -/

/-- C8 counterexample: on the query-error path the run terminates via
`exit(1)` while the source cursor is still open: `Disconnect_Source` is
not reached, contradicting "the source connection is released
unconditionally at run end, including on error paths". -/
theorem fos_query_error_leaves_cursor_open :
    (fosRun true [] [] noFail noFail).cursorClosed = false := by
  exact rfl

/-- C8 (amended): `Disconnect_Source` is reached exactly on runs whose
source retrieval succeeds and whose store step raises no uncaught
exception; the query-error exit and uncaught exceptions terminate the
process with the cursor still open. -/
theorem fos_run_closes_cursor_on_success (srcRows : List Row)
    (dest : List (Scalar × Row)) (fS fD : Scalar → Bool) (input : List (Scalar × Row))
    (hret : fosRetrieve srcRows = .ok input)
    (hst : (fosStore dest input fS fD).raised = none) :
    (fosRun false srcRows dest fS fD).cursorClosed = true := by
  unfold fosRun
  simp [hret, hst]

/-- Witness for amended C8 at a concrete run. -/
theorem fos_run_closes_cursor_on_success_witness :
    fosRetrieve [exFosRow] = .ok [(Scalar.int 1, exFosRow)] ∧
    (fosStore [] [(Scalar.int 1, exFosRow)] noFail noFail).raised = none ∧
    (fosRun false [exFosRow] [] noFail noFail).cursorClosed = true :=
  ⟨by decide, by decide,
    fos_run_closes_cursor_on_success [exFosRow] [] noFail noFail
      [(Scalar.int 1, exFosRow)] (by decide) (by decide)⟩

/-! ### Behavior of the persons retrieve and store -/

/-- The three shared literal keys hold the aggregates of the person row
processed last. -/
theorem personsAssemble_literals (A : List (Scalar × List Row)) (C E : List (Scalar × Scalar)) :
    ∀ (pInit : List Row) (lastRow : Row) (data DATA : List (Scalar × PyObj)),
    personsAssemble A C E (pInit ++ [lastRow]) data = .ok DATA →
    ∃ lk, Row.getItem lastRow "person_id" = .ok lk ∧
      lookupKey DATA (Scalar.str "addresses") = some (addrVal A lk) ∧
      lookupKey DATA (Scalar.str "citizenships") =
        some (.scalar ((lookupKey C lk).getD .null)) ∧
      lookupKey DATA (Scalar.str "emails") =
        some (.scalar ((lookupKey E lk).getD .null))
  | [], lastRow, data, DATA, h => by
    rw [List.nil_append] at h
    cases hk : Row.getItem lastRow "person_id" with
    | error e => simp [personsAssemble, hk] at h
    | ok key =>
      have hD : DATA = personsStep A C E data key lastRow := by
        have h' := h
        simp [personsAssemble, hk] at h'
        exact h'.symm
      subst hD
      refine ⟨key, rfl, ?_, ?_, ?_⟩
      · unfold personsStep
        rw [lookupKey_setKey_ne _ _ _ _ (by decide),
            lookupKey_setKey_ne _ _ _ _ (by decide),
            lookupKey_setKey_self]
      · unfold personsStep
        rw [lookupKey_setKey_ne _ _ _ _ (by decide), lookupKey_setKey_self]
      · unfold personsStep
        rw [lookupKey_setKey_self]
  | row :: pInit, lastRow, data, DATA, h => by
    rw [List.cons_append] at h
    cases hk : Row.getItem row "person_id" with
    | error e => simp [personsAssemble, hk] at h
    | ok key =>
      have h' : personsAssemble A C E (pInit ++ [lastRow])
          (personsStep A C E data key row) = .ok DATA := by
        simpa [personsAssemble, hk] using h
      exact personsAssemble_literals A C E pInit lastRow _ DATA h'

/-- Every entry of the returned map outside the three literal keys is a
bare person row. -/
theorem personsAssemble_values (A : List (Scalar × List Row)) (C E : List (Scalar × Scalar)) :
    ∀ (pRows : List Row) (data DATA : List (Scalar × PyObj)),
    personsAssemble A C E pRows data = .ok DATA →
    ∀ k v, (k == Scalar.str "addresses") = false →
      (k == Scalar.str "citizenships") = false →
      (k == Scalar.str "emails") = false →
      lookupKey DATA k = some v →
      lookupKey data k = some v ∨ ∃ row ∈ pRows, v = PyObj.dict row
  | [], data, DATA, h => by
    intro k v _ _ _ hl
    have hD : DATA = data := (Except.ok.inj h).symm
    subst hD
    exact Or.inl hl
  | row :: rest, data, DATA, h => by
    intro k v h1 h2 h3 hl
    cases hk : Row.getItem row "person_id" with
    | error e => simp [personsAssemble, hk] at h
    | ok key =>
      have h' : personsAssemble A C E rest (personsStep A C E data key row) = .ok DATA := by
        simpa [personsAssemble, hk] using h
      rcases personsAssemble_values A C E rest _ DATA h' k v h1 h2 h3 hl with
        hone | ⟨r2, hr2, hv⟩
      · unfold personsStep at hone
        rw [lookupKey_setKey_ne _ _ _ _ h3, lookupKey_setKey_ne _ _ _ _ h2,
            lookupKey_setKey_ne _ _ _ _ h1] at hone
        by_cases hkeq : k = key
        · subst hkeq
          rw [lookupKey_setKey_self] at hone
          exact Or.inr ⟨row, List.mem_cons_self _ _, (Option.some.inj hone).symm⟩
        · rw [lookupKey_setKey_ne _ _ _ _ (beq_false_of_ne hkeq)] at hone
          exact Or.inl hone
      · exact Or.inr ⟨r2, List.mem_cons_of_mem _ hr2, hv⟩

/-- The value stored under the literal `'addresses'` key always raises
when the update loop subscripts it: a list raises `TypeError`, the empty
dict default raises `KeyError`. -/
theorem pUpdateStep_addrVal (A : List (Scalar × List Row)) (lk : Scalar) :
    ∃ e, pUpdateStep (addrVal A lk) = .error e := by
  unfold addrVal
  cases lookupKey A lk with
  | some rs => exact ⟨.typeError, rfl⟩
  | none => exact ⟨.keyError "person_id", rfl⟩

/-- If some map entry raises when processed, the persons update loop ends
with an uncaught exception (the `DataError` handler itself raises, so no
branch can return normally past a raising entry). -/
theorem personsUpdate_raises (fS : Scalar → Bool) :
    ∀ (items : List (Scalar × PyObj)) (lastPid : Option Scalar) (st : PStoreRes),
    (∃ p ∈ items, ∃ e, pUpdateStep p.2 = .error e) →
    ∃ e2, (personsUpdate fS items lastPid st).raised = some e2
  | [], _, _, h => by
    obtain ⟨p, hp, _⟩ := h
    cases hp
  | (k, nitem) :: rest, lastPid, st, h => by
    cases hstep : pUpdateStep nitem with
    | error e => exact ⟨e, by simp [personsUpdate, hstep]⟩
    | ok m =>
      by_cases hf : fS m.person_id = true
      · cases lastPid with
        | none => exact ⟨.nameError "person_id", by simp [personsUpdate, hstep, hf]⟩
        | some q => exact ⟨.attributeError "message", by simp [personsUpdate, hstep, hf]⟩
      · simp only [Bool.not_eq_true] at hf
        have h' : ∃ p ∈ rest, ∃ e, pUpdateStep p.2 = .error e := by
          obtain ⟨p, hp, e, he⟩ := h
          rcases List.mem_cons.mp hp with hph | hpt
          · rw [hph] at he
            rw [hstep] at he
            simp at he
          · exact ⟨p, hpt, e, he⟩
        obtain ⟨e2, he2⟩ := personsUpdate_raises fS rest (some m.person_id)
          { st with store := setKey st.store m.person_id m, upd := st.upd + 1 } h'
        exact ⟨e2, by simpa [personsUpdate, hstep, hf] using he2⟩

/-! ### Claim C9 -/

/-- C9: the persons router's `Retrieve_Source` writes the derived
addresses/citizenships/emails aggregates to the shared literal keys
`'addresses'`, `'citizenships'`, `'emails'` of the returned map,
overwriting them on every person-row iteration: for every source result
with at least one person row, the map holds, under those three top-level
literal keys, exactly the aggregates of the last-processed person, and
every other entry is a bare `person_v` row, which carries no
addresses/citizenships/emails fields of its own. -/
theorem persons_retrieve_shared_literal_keys
    (aRows cRows eRows pInit : List Row) (lastRow : Row) (DATA : List (Scalar × PyObj))
    (A : List (Scalar × List Row)) (C E : List (Scalar × Scalar))
    (hA : buildA aRows = .ok A) (hC : buildJoin "country" cRows = .ok C)
    (hE : buildJoin "Email" eRows = .ok E)
    (hret : personsRetrieve aRows cRows eRows (pInit ++ [lastRow]) = .ok DATA)
    (hcols : ∀ row ∈ pInit ++ [lastRow], containsKey row "addresses" = false ∧
      containsKey row "citizenships" = false ∧ containsKey row "emails" = false) :
    ∃ lk, Row.getItem lastRow "person_id" = .ok lk ∧
      lookupKey DATA (Scalar.str "addresses") = some (addrVal A lk) ∧
      lookupKey DATA (Scalar.str "citizenships") =
        some (.scalar ((lookupKey C lk).getD .null)) ∧
      lookupKey DATA (Scalar.str "emails") =
        some (.scalar ((lookupKey E lk).getD .null)) ∧
      (∀ k v, (k == Scalar.str "addresses") = false →
        (k == Scalar.str "citizenships") = false →
        (k == Scalar.str "emails") = false →
        lookupKey DATA k = some v →
        ∃ row ∈ pInit ++ [lastRow], v = PyObj.dict row ∧
          containsKey row "addresses" = false ∧
          containsKey row "citizenships" = false ∧
          containsKey row "emails" = false) := by
  have hasm : personsAssemble A C E (pInit ++ [lastRow]) [] = .ok DATA := by
    unfold personsRetrieve at hret
    rw [hA, hC, hE] at hret
    simpa [Bind.bind, Except.bind] using hret
  obtain ⟨lk, hlk, ha, hc, he⟩ :=
    personsAssemble_literals A C E pInit lastRow [] DATA hasm
  refine ⟨lk, hlk, ha, hc, he, ?_⟩
  intro k v h1 h2 h3 hl
  rcases personsAssemble_values A C E (pInit ++ [lastRow]) [] DATA hasm k v h1 h2 h3 hl with
    hnone | ⟨row, hrow, hv⟩
  · rw [lookupKey_nil] at hnone
    cases hnone
  · obtain ⟨c1, c2, c3⟩ := hcols row hrow
    exact ⟨row, hrow, hv, c1, c2, c3⟩

/-- Witness for C9 at a concrete one-person source result. -/
theorem persons_retrieve_shared_literal_keys_witness :
    buildA [] = .ok [] ∧ buildJoin "country" [] = .ok [] ∧
    buildJoin "Email" [] = .ok [] ∧
    personsRetrieve [] [] [] ([] ++ [exPersonRow]) = .ok exPersonsDATA ∧
    (∀ row ∈ [] ++ [exPersonRow], containsKey row "addresses" = false ∧
      containsKey row "citizenships" = false ∧ containsKey row "emails" = false) ∧
    (∃ lk, Row.getItem exPersonRow "person_id" = .ok lk ∧
      lookupKey exPersonsDATA (Scalar.str "addresses") = some (addrVal [] lk) ∧
      lookupKey exPersonsDATA (Scalar.str "citizenships") =
        some (.scalar ((lookupKey ([] : List (Scalar × Scalar)) lk).getD .null)) ∧
      lookupKey exPersonsDATA (Scalar.str "emails") =
        some (.scalar ((lookupKey ([] : List (Scalar × Scalar)) lk).getD .null)) ∧
      (∀ k v, (k == Scalar.str "addresses") = false →
        (k == Scalar.str "citizenships") = false →
        (k == Scalar.str "emails") = false →
        lookupKey exPersonsDATA k = some v →
        ∃ row ∈ [] ++ [exPersonRow], v = PyObj.dict row ∧
          containsKey row "addresses" = false ∧
          containsKey row "citizenships" = false ∧
          containsKey row "emails" = false)) :=
  ⟨rfl, rfl, rfl, by decide, by decide,
    persons_retrieve_shared_literal_keys [] [] [] [] exPersonRow exPersonsDATA [] [] []
      rfl rfl rfl (by decide) (by decide)⟩

/-! ### Claim C10 -/

/-- C10: for every non-empty map produced by the persons router's
`Retrieve_Source` (at least one person row), `Store_Destination` raises an
uncaught exception — the literal `'addresses'` entry alone already raises
`TypeError` (a list subscripted by a string) or `KeyError` (the empty-dict
default), and even the `DataError` handler raises (`NameError` or
`AttributeError`) — so the method never returns `(True, '')` and the run
never completes successfully. -/
theorem persons_store_never_completes
    (dest : List (Scalar × PModel)) (aRows cRows eRows pInit : List Row) (lastRow : Row)
    (DATA : List (Scalar × PyObj)) (fS : Scalar → Bool)
    (hret : personsRetrieve aRows cRows eRows (pInit ++ [lastRow]) = .ok DATA) :
    ∃ e, (personsStore dest DATA fS).raised = some e := by
  unfold personsRetrieve at hret
  cases hA : buildA aRows with
  | error e => rw [hA] at hret; simp [Bind.bind, Except.bind] at hret
  | ok A =>
    cases hC : buildJoin "country" cRows with
    | error e => rw [hA, hC] at hret; simp [Bind.bind, Except.bind] at hret
    | ok C =>
      cases hE : buildJoin "Email" eRows with
      | error e => rw [hA, hC, hE] at hret; simp [Bind.bind, Except.bind] at hret
      | ok E =>
        rw [hA, hC, hE] at hret
        have hasm : personsAssemble A C E (pInit ++ [lastRow]) [] = .ok DATA := by
          simpa [Bind.bind, Except.bind] using hret
        obtain ⟨lk, _, ha, _, _⟩ :=
          personsAssemble_literals A C E pInit lastRow [] DATA hasm
        obtain ⟨e0, he0⟩ := pUpdateStep_addrVal A lk
        obtain ⟨e2, he2⟩ := personsUpdate_raises fS DATA none { store := dest }
          ⟨(Scalar.str "addresses", addrVal A lk), lookupKey_mem ha, e0, he0⟩
        refine ⟨e2, ?_⟩
        unfold personsStore
        simp [he2]

/-- Witness for C10 at the concrete one-person source result. -/
theorem persons_store_never_completes_witness :
    personsRetrieve [] [] [] ([] ++ [exPersonRow]) = .ok exPersonsDATA ∧
    (∃ e, (personsStore [] exPersonsDATA noFail).raised = some e) :=
  ⟨by decide,
    persons_store_never_completes [] [] [] [] [] exPersonRow exPersonsDATA noFail
      (by decide)⟩

end RouterDB
